import Mathlib

/-!
Verification of the Wikipedia Event Discovery & Classification Engine and the
quiz game engine of the Left-Behind repository.

Texts are modelled as `List Char` (JS strings).  The JS regular expressions of
the source are modelled by dedicated scanning functions that reproduce the
leftmost-match, greedy-with-backtracking semantics of the concrete patterns
appearing in the source (`src/lib/wikipedia.ts`, game engine module).
Functions whose JS recursion is not structural use an explicit fuel argument
(initialised with the length of the scanned text), so that every definition
is executable by kernel reduction.
-/

/-- Convert a Lean string literal to the `List Char` text representation. -/
def lstr (s : String) : List Char := s.data

/-- JS `String.prototype.toLowerCase`, restricted to the characters relevant to
this code base (ASCII, Latin-1 letters, Œ and Ÿ); all other characters are
fixed.  This models the Unicode simple lower-case mapping used by JS. -/
def lowerChar (c : Char) : Char :=
  match c with
  | 'A' => 'a' | 'B' => 'b' | 'C' => 'c' | 'D' => 'd' | 'E' => 'e' | 'F' => 'f'
  | 'G' => 'g' | 'H' => 'h' | 'I' => 'i' | 'J' => 'j' | 'K' => 'k' | 'L' => 'l'
  | 'M' => 'm' | 'N' => 'n' | 'O' => 'o' | 'P' => 'p' | 'Q' => 'q' | 'R' => 'r'
  | 'S' => 's' | 'T' => 't' | 'U' => 'u' | 'V' => 'v' | 'W' => 'w' | 'X' => 'x'
  | 'Y' => 'y' | 'Z' => 'z'
  | 'À' => 'à' | 'Á' => 'á' | 'Â' => 'â' | 'Ã' => 'ã' | 'Ä' => 'ä' | 'Å' => 'å'
  | 'Æ' => 'æ' | 'Ç' => 'ç' | 'È' => 'è' | 'É' => 'é' | 'Ê' => 'ê' | 'Ë' => 'ë'
  | 'Ì' => 'ì' | 'Í' => 'í' | 'Î' => 'î' | 'Ï' => 'ï' | 'Ð' => 'ð' | 'Ñ' => 'ñ'
  | 'Ò' => 'ò' | 'Ó' => 'ó' | 'Ô' => 'ô' | 'Õ' => 'õ' | 'Ö' => 'ö' | 'Ø' => 'ø'
  | 'Ù' => 'ù' | 'Ú' => 'ú' | 'Û' => 'û' | 'Ü' => 'ü' | 'Ý' => 'ý' | 'Þ' => 'þ'
  | 'Œ' => 'œ' | 'Ÿ' => 'ÿ'
  | c => c

/-- JS `String.prototype.toUpperCase`, restricted as for `lowerChar` (the
multi-character expansion of ß is not needed: the function is only applied to
captured Roman-numeral groups, whose characters are I/V/X in either case). -/
def upperChar (c : Char) : Char :=
  match c with
  | 'a' => 'A' | 'b' => 'B' | 'c' => 'C' | 'd' => 'D' | 'e' => 'E' | 'f' => 'F'
  | 'g' => 'G' | 'h' => 'H' | 'i' => 'I' | 'j' => 'J' | 'k' => 'K' | 'l' => 'L'
  | 'm' => 'M' | 'n' => 'N' | 'o' => 'O' | 'p' => 'P' | 'q' => 'Q' | 'r' => 'R'
  | 's' => 'S' | 't' => 'T' | 'u' => 'U' | 'v' => 'V' | 'w' => 'W' | 'x' => 'X'
  | 'y' => 'Y' | 'z' => 'Z'
  | 'à' => 'À' | 'á' => 'Á' | 'â' => 'Â' | 'ã' => 'Ã' | 'ä' => 'Ä' | 'å' => 'Å'
  | 'æ' => 'Æ' | 'ç' => 'Ç' | 'è' => 'È' | 'é' => 'É' | 'ê' => 'Ê' | 'ë' => 'Ë'
  | 'ì' => 'Ì' | 'í' => 'Í' | 'î' => 'Î' | 'ï' => 'Ï' | 'ð' => 'Ð' | 'ñ' => 'Ñ'
  | 'ò' => 'Ò' | 'ó' => 'Ó' | 'ô' => 'Ô' | 'õ' => 'Õ' | 'ö' => 'Ö' | 'ø' => 'Ø'
  | 'ù' => 'Ù' | 'ú' => 'Ú' | 'û' => 'Û' | 'ü' => 'Ü' | 'ý' => 'Ý' | 'þ' => 'Þ'
  | 'œ' => 'Œ' | 'ÿ' => 'Ÿ'
  | c => c

/-- Lower-casing of a whole text. -/
def toLowerStr (t : List Char) : List Char := t.map lowerChar

/-- Upper-casing of a whole text (used on Roman-numeral captured groups). -/
def toUpperStr (t : List Char) : List Char := t.map upperChar

/-- Case-insensitive character equality, as used by JS regex `i` matching
(canonicalised comparison). -/
def ciEq (a b : Char) : Bool := lowerChar a == lowerChar b

/-- JS regex `\d`. -/
def isDigit (c : Char) : Bool := 48 ≤ c.toNat && c.toNat ≤ 57

/-- JS regex `\w` (ASCII alphanumerics and underscore; accented letters are
*not* word characters in JS). -/
def isWordChar (c : Char) : Bool :=
  (48 ≤ c.toNat && c.toNat ≤ 57) || (65 ≤ c.toNat && c.toNat ≤ 90) ||
  (97 ≤ c.toNat && c.toNat ≤ 122) || c.toNat == 95

/-- JS regex `\s` (WhiteSpace and LineTerminator code points). -/
def isSpaceJS (c : Char) : Bool :=
  let n := c.toNat
  n == 32 || (9 ≤ n && n ≤ 13) || n == 160 || n == 5760 ||
  (8192 ≤ n && n ≤ 8202) || n == 8232 || n == 8233 || n == 8239 ||
  n == 8287 || n == 12288 || n == 65279

/-- Word-ness of an optional character; the edge of the string counts as a
non-word position (used for `\b`). -/
def wordnessO : Option Char → Bool
  | none => false
  | some c => isWordChar c

/-- JS regex `\b`: a word boundary sits between two adjacent positions of
different word-ness. -/
def boundaryOC (a b : Option Char) : Bool := wordnessO a != wordnessO b

/-- Case-insensitive "the pattern is a prefix of the text" (JS regex literal
matching under the `i` flag). -/
def ciLeads : List Char → List Char → Bool
  | [], _ => true
  | _ :: _, [] => false
  | p :: ps, c :: cs => ciEq p c && ciLeads ps cs

/-- JS `String.prototype.includes` (case-sensitive substring test). -/
def strHas : List Char → List Char → Bool
  | hay, needle =>
    if needle.isPrefixOf hay then true
    else
      match hay with
      | [] => false
      | _ :: t => strHas t needle

/-- Numeric value of a digit run (JS `parseInt`/`Number` on a digit string;
leading zeros are accepted). -/
def digitsVal (ds : List Char) : Nat :=
  ds.foldl (fun a c => a * 10 + (c.toNat - 48)) 0

/-- Decimal rendering of a natural number (JS template `${n}`). -/
def natToChars (n : Nat) : List Char := Nat.toDigits 10 n

-- ─────────────────────────────────────────────────────────────────
--  CLASSIFICATION lexicon — 4 pillars (verbatim from the source)
-- ─────────────────────────────────────────────────────────────────

def SHOCK_KW : List (List Char) :=
  [lstr "massacre", lstr "exécution", lstr "pogrom", lstr "rafle",
   lstr "génocide", lstr "attentat", lstr "assassinat", lstr "torture",
   lstr "déportation", lstr "persécution", lstr "esclavage",
   lstr "bombardement", lstr "extermination", lstr "fusillade", lstr "noyade"]

def SHOCK_VERBS : List (List Char) :=
  [lstr "assassin", lstr "exécut", lstr "massacr", lstr "fusill",
   lstr "pendu", lstr "noyé", lstr "brûlé", lstr "tortur",
   lstr "déport", lstr "extermin"]

def MEMORIAL_KW : List (List Char) :=
  [lstr "camp de concentration", lstr "camp d'extermination",
   lstr "camp de la mort", lstr "déportation", lstr "extermination",
   lstr "goulag", lstr "charnier", lstr "chambre à gaz", lstr "shoah",
   lstr "holocauste", lstr "solution finale"]

def CIVILIZATION_KW : List (List Char) :=
  [lstr "empire", lstr "traité", lstr "dynastie", lstr "fondation",
   lstr "couronnement", lstr "proclamation", lstr "constitution",
   lstr "cathédrale", lstr "palais", lstr "forteresse", lstr "antiquité",
   lstr "romain", lstr "pharaon", lstr "civilisation", lstr "royaume",
   lstr "signature", lstr "alliance", lstr "armistice", lstr "capitulation"]

def STRUGGLE_KW : List (List Char) :=
  [lstr "grève", lstr "manifestation", lstr "résistance", lstr "insurrection",
   lstr "révolte", lstr "révolution", lstr "barricade", lstr "soulèvement",
   lstr "droits civiques", lstr "émancipation", lstr "libération",
   lstr "indépendance", lstr "répression", lstr "censure", lstr "ségrégation",
   lstr "occulté", lstr "bavure", lstr "colonisation"]

def ORIGINS_KW : List (List Char) :=
  [lstr "archéologie", lstr "préhistoire", lstr "néolithique",
   lstr "paléolithique", lstr "migration", lstr "mégalithe", lstr "grotte",
   lstr "fossile", lstr "sépulture", lstr "dolmen", lstr "menhir",
   lstr "cité antique", lstr "ruines", lstr "vestige", lstr "âge du bronze",
   lstr "âge du fer"]

def IMPACT_KW : List (List Char) :=
  [lstr "victimes", lstr "morts", lstr "tués", lstr "blessés",
   lstr "disparus", lstr "fusillés", lstr "pendus", lstr "noyés",
   lstr "brûlés", lstr "détenus", lstr "prisonniers"]

def ALL_VERBS : List (List Char) :=
  [lstr "assassin", lstr "proclam", lstr "envahi", lstr "sign",
   lstr "découvr", lstr "soulev", lstr "conqui", lstr "détru",
   lstr "incendi", lstr "bombard", lstr "libér", lstr "occup",
   lstr "exécut", lstr "massacr", lstr "fusill", lstr "déport",
   lstr "resist", lstr "revolt", lstr "fond", lstr "constru",
   lstr "érig", lstr "bâti"]

def GEO_PENALTIES : List (List Char) :=
  [lstr "commune de", lstr "code postal", lstr "montagne", lstr "sommet",
   lstr "fleuve", lstr "altitude", lstr "km²", lstr "rivière",
   lstr "affluent", lstr "bassin versant", lstr "département",
   lstr "arrondissement", lstr "canton de", lstr "intercommunalité"]

def CHURCH_WORDS : List (List Char) :=
  [lstr "église", lstr "paroisse", lstr "édifice", lstr "chapelle"]

def SPORT_BLACKLIST : List (List Char) :=
  [lstr "football", lstr "stade", lstr "match", lstr "olympique",
   lstr "club sportif", lstr "championnat", lstr "ligue",
   lstr "coupe du monde", lstr "rugby", lstr "tennis", lstr "natation",
   lstr "athlétisme", lstr "gymnase"]

def SPORT_EXCEPTIONS : List (List Char) :=
  [lstr "exécution", lstr "prisonnier", lstr "détenu", lstr "massacre",
   lstr "internement", lstr "déportation", lstr "camp", lstr "fusillade",
   lstr "mémorial"]

-- ─────────────────────────────────────────────────────────────────
--  DATES — extractYear / extractCenturyYear / formatCenturyLabel
-- ─────────────────────────────────────────────────────────────────

/-- The Roman-numeral table `ROMAN_TO_NUM` of the source. -/
def ROMAN_TABLE : List (List Char × Nat) :=
  [(lstr "I", 1), (lstr "II", 2), (lstr "III", 3), (lstr "IV", 4),
   (lstr "V", 5), (lstr "VI", 6), (lstr "VII", 7), (lstr "VIII", 8),
   (lstr "IX", 9), (lstr "X", 10), (lstr "XI", 11), (lstr "XII", 12),
   (lstr "XIII", 13), (lstr "XIV", 14), (lstr "XV", 15), (lstr "XVI", 16),
   (lstr "XVII", 17), (lstr "XVIII", 18), (lstr "XIX", 19), (lstr "XX", 20),
   (lstr "XXI", 21)]

/-- `ROMAN_TO_NUM[key]` (an absent key yields `none`, i.e. JS `undefined`). -/
def romanLookup (g : List Char) : Option Nat := ROMAN_TABLE.lookup g

/-- First roman numeral of the table having a given value
(`Object.entries(ROMAN_TO_NUM).find(([, v]) => v === n)`). -/
def romanOfNum (n : Nat) : Option (List Char) :=
  (ROMAN_TABLE.find? (fun p => p.2 == n)).map Prod.fst

/-- Optional `(?:ant)?` part of the BCE pattern (greedy, deterministic). -/
def matchAnt (t : List Char) : List Char :=
  match t with
  | a :: n :: tc :: r => if ciEq a 'a' && ciEq n 'n' && ciEq tc 't' then r else t
  | _ => t

/-- Optional literal `.` (greedy, deterministic). -/
def dropDot (t : List Char) : List Char :=
  match t with
  | '.' :: r => r
  | _ => t

/-- Optional literal `-` (greedy, deterministic). -/
def dropDash (t : List Char) : List Char :=
  match t with
  | '-' :: r => r
  | _ => t

/-- Tail of the BCE-year pattern `\s*av(?:ant)?\.?\s*J\.?-?C` (the final `\.?`
of the source pattern cannot affect whether a match exists). -/
def restAv (t : List Char) : Bool :=
  match t.dropWhile isSpaceJS with
  | a :: v :: t2 =>
    if ciEq a 'a' && ciEq v 'v' then
      match (dropDot (matchAnt t2)).dropWhile isSpaceJS with
      | j :: t6 =>
        if ciEq j 'j' then
          match dropDash (dropDot t6) with
          | cc :: _ => ciEq cc 'c'
          | [] => false
        else false
      | [] => false
    else false
  | _ => false

/-- First match of `/(\d{1,4})\s*av(?:ant)?\.?\s*J\.?-?C\.?/i`, returning the
numeric value of the captured digit group.  At each start position the greedy
digit quantifier can only succeed by consuming the whole digit run (a shorter
take leaves a digit where `\s*av` must match), and runs longer than 4 digits
fail at that start position. -/
def bcYearScan : List Char → Option Nat
  | [] => none
  | c :: t =>
    if isDigit c then
      let run := c :: t.takeWhile isDigit
      let rest := t.dropWhile isDigit
      if run.length ≤ 4 && restAv rest then some (digitsVal run)
      else bcYearScan t
    else bcYearScan t

/-- All matches of `/\b(\d{3,4})\b/g`: maximal digit runs of length 3 or 4
delimited by word boundaries.  `prevWord` is the word-ness of the previous
character. -/
def yearScan (prevWord : Bool) : List Char → List Nat
  | [] => []
  | c :: t =>
    if isDigit c && !prevWord then
      let run := c :: t.takeWhile isDigit
      let rest := t.dropWhile isDigit
      let ok := (run.length == 3 || run.length == 4) &&
        (match rest with | [] => true | r :: _ => !isWordChar r)
      if ok then digitsVal run :: yearScan true t else yearScan true t
    else yearScan (isWordChar c) t

/-- The 3–4 digit numbers of a text that lie in the year range [100, 2025]. -/
def inRangeYears (t : List Char) : List Nat :=
  (yearScan false t).filter (fun y => 100 ≤ y && y ≤ 2025)

/-- Trailing I-run candidates for `I{0,3}` at a position, greedy order
(longest first), each with the original matched characters and the rest. -/
def iCands (u : List Char) : List (List Char × List Char) :=
  let run := (u.takeWhile (fun c => ciEq c 'i')).take 3
  (List.range (run.length + 1)).reverse.map (fun j => (u.take j, u.drop j))

/-- Alternation `(?:IX|IV|V?I{0,3})` at a position, in engine order. -/
def altCands (u : List Char) : List (List Char × List Char) :=
  (match u with
   | a :: b :: r => if ciEq a 'i' && ciEq b 'x' then [([a, b], r)] else []
   | _ => []) ++
  (match u with
   | a :: b :: r => if ciEq a 'i' && ciEq b 'v' then [([a, b], r)] else []
   | _ => []) ++
  (match u with
   | v :: r =>
     if ciEq v 'v' then (iCands r).map (fun p => (v :: p.1, p.2)) else []
   | _ => []) ++
  iCands u

/-- All candidate captured groups of `(X{0,3}(?:IX|IV|V?I{0,3}))` at a
position, in the order the backtracking engine tries them (greedy `X{0,3}`
outermost).  Groups carry the original (case-preserving) characters. -/
def romanCandsAt (t : List Char) : List (List Char × List Char) :=
  let xrun := (t.takeWhile (fun c => ciEq c 'x')).take 3
  ((List.range (xrun.length + 1)).reverse.map (fun k =>
    (altCands (t.drop k)).map (fun p => (t.take k ++ p.1, p.2)))).flatten

/-- Suffix `e\s*siècle` (and, when `needAv` is set, the further `\s*av`) after
a candidate group. -/
def sieYes (needAv : Bool) (rest : List Char) : Bool :=
  match rest with
  | e :: r1 =>
    ciEq e 'e' &&
      (let r2 := r1.dropWhile isSpaceJS
       ciLeads (lstr "siècle") r2 &&
         (!needAv ||
           (match (r2.drop 6).dropWhile isSpaceJS with
            | a :: v :: _ => ciEq a 'a' && ciEq v 'v'
            | _ => false)))
  | [] => false

/-- First successful candidate group at a given start position. -/
def romanFind (needAv : Bool) (s : List Char) : Option (List Char) :=
  ((romanCandsAt s).find? (fun p => sieYes needAv p.2)).map Prod.fst

/-- First match of `/\b(X{0,3}(?:IX|IV|V?I{0,3}))e\s*siècle(\s*av)?/i`
(with `\s*av` required when `needAv` is set): positions are scanned left to
right, each position first passing the `\b` test. -/
def romanScan (needAv : Bool) (prev : Option Char) : List Char → Option (List Char)
  | [] => none
  | c :: t =>
    if boundaryOC prev (some c) then
      match romanFind needAv (c :: t) with
      | some g => some g
      | none => romanScan needAv (some c) t
    else romanScan needAv (some c) t

/-- Suffix `(?:e|ème)\s*siècle` of the Arabic-ordinal century pattern. -/
def arabSuf (rest : List Char) : Bool :=
  match rest with
  | e :: r1 =>
    (ciEq e 'e' && ciLeads (lstr "siècle") (r1.dropWhile isSpaceJS)) ||
    (ciEq e 'è' &&
      (match r1 with
       | m :: e2 :: r2 =>
         ciEq m 'm' && ciEq e2 'e' &&
           ciLeads (lstr "siècle") (r2.dropWhile isSpaceJS)
       | _ => false))
  | [] => false

/-- Greedy `(\d{1,2})` followed by `(?:e|ème)\s*siècle` at a position whose
first character is a digit: two digits are preferred over one. -/
def arabAt (s : List Char) : Option Nat :=
  let run := s.takeWhile isDigit
  if run.length ≥ 2 && arabSuf (s.drop 2) then some (digitsVal (s.take 2))
  else if run.length ≥ 1 && arabSuf (s.drop 1) then some (digitsVal (s.take 1))
  else none

/-- First match of `/\b(\d{1,2})(?:e|ème)\s*siècle/i`, returning the numeric
value of the captured group. -/
def arabCentScan (prev : Option Char) : List Char → Option Nat
  | [] => none
  | c :: t =>
    if isDigit c && boundaryOC prev (some c) then
      match arabAt (c :: t) with
      | some n => some n
      | none => arabCentScan (some c) t
    else arabCentScan (some c) t

/-- Arabic-ordinal branch of `extractCenturyYear` (out-of-range ordinals fall
through to `null`). -/
def centuryArab (t : List Char) : Option Int :=
  match arabCentScan none t with
  | some n => if 1 ≤ n && n ≤ 21 then some ((n : Int) * 100 - 50) else none
  | none => none

/-- CE Roman branch of `extractCenturyYear`; a match whose captured group is
not a key of `ROMAN_TO_NUM` falls through to the Arabic branch. -/
def centuryCE (t : List Char) : Option Int :=
  match romanScan false none t with
  | some g =>
    match romanLookup (toUpperStr g) with
    | some n => some ((n : Int) * 100 - 50)
    | none => centuryArab t
  | none => centuryArab t

/-- `extractCenturyYear` of the source. -/
def extractCenturyYear (t : List Char) : Option Int :=
  match romanScan true none t with
  | some g =>
    match romanLookup (toUpperStr g) with
    | some n => some (-((n : Int) * 100 - 50))
    | none => centuryCE t
  | none => centuryCE t

/-- `extractYear` of the source: explicit BCE pattern first, then the minimum
in-range 3–4 digit number, then century notation, else `null`. -/
def extractYear (t : List Char) : Option Int :=
  match bcYearScan t with
  | some n => some (-(n : Int))
  | none =>
    match inRangeYears t with
    | y :: ys => some ((ys.foldl min y : Nat) : Int)
    | [] => extractCenturyYear t

/-- `formatCenturyLabel` of the source (the raw captured group is used for
display). -/
def formatCenturyLabel (t : List Char) : Option (List Char) :=
  match romanScan true none t with
  | some g => some (g ++ lstr "e av. J.-C.")
  | none =>
    match romanScan false none t with
    | some g => some (g ++ lstr "e")
    | none =>
      match arabCentScan none t with
      | some n =>
        match romanOfNum n with
        | some r => some (r ++ lstr "e")
        | none => some (natToChars n ++ lstr "e")
      | none => none

example : extractYear (lstr "en 1515 et 1789") = some 1515 := by decide
example : extractYear (lstr "480 av. J.-C.") = some (-480) := by decide
example : extractYear (lstr "XVIe siècle") = some 1550 := by decide
example : extractYear (lstr "IIe siècle av. J.-C.") = some (-150) := by decide
example : extractYear (lstr "5e siècle av. J.-C.") = some 450 := by decide
example : extractYear (lstr "0 av. J.-C.") = some 0 := by decide
example : extractYear (lstr "rien ici") = none := by decide
example : extractYear (lstr "12345 av. J.-C.") = some (-2345) := by decide
example : extractYear (lstr "l'an 99") = none := by decide

-- ─────────────────────────────────────────────────────────────────
--  SCORING & CLASSIFICATION
-- ─────────────────────────────────────────────────────────────────

inductive WikiCategory where
  | shock
  | civilization
  | struggle
  | origins
deriving DecidableEq, Repr

/-- Number of keywords of a list occurring in a text
(`words.filter((k) => text.includes(k)).length`). -/
def kwHits (kws : List (List Char)) (text : List Char) : Nat :=
  (kws.filter (fun k => strHas text k)).length

/-- `hasVerb` of the source. -/
def hasVerb (text : List Char) : Bool :=
  ALL_VERBS.any (fun v => strHas (toLowerStr text) v)

/-- Non-overlapping occurrence count of one word, scanning left to right
(the `indexOf` loop of `countOccurrences`); fuel-indexed. -/
def countOccF (w : List Char) : Nat → List Char → Nat
  | _, [] => 0
  | 0, _ => 0
  | f + 1, c :: t =>
    if !w.isEmpty && w.isPrefixOf (c :: t) then
      1 + countOccF w f ((c :: t).drop w.length)
    else countOccF w f t

def countOcc (w t : List Char) : Nat := countOccF w t.length t

/-- `countOccurrences` of the source. -/
def countOccurrences (text : List Char) (words : List (List Char)) : Nat :=
  let tl := toLowerStr text
  words.foldl (fun n w => n + countOcc w tl) 0

/-- `classify` of the source.  The stable descending sort of the four
`(category, weighted score)` pairs followed by taking the first element is
modelled by keeping the earliest category and replacing it only on a strictly
greater weighted score. -/
def classify (full : List Char) : WikiCategory × Int :=
  let shockHits := kwHits SHOCK_KW full
  let shockVerbHits := kwHits SHOCK_VERBS full
  let civHits := kwHits CIVILIZATION_KW full
  let struggleHits := kwHits STRUGGLE_KW full
  let originsHits := kwHits ORIGINS_KW full
  let sShock : Int := shockHits * 25 + shockVerbHits * 20
  let sCiv : Int := civHits * 12
  let sStruggle : Int := struggleHits * 20
  let sOrigins : Int := originsHits * 5
  let b1 : WikiCategory × Int := (WikiCategory.shock, sShock)
  let b2 := if sCiv > b1.2 then (WikiCategory.civilization, sCiv) else b1
  let b3 := if sStruggle > b2.2 then (WikiCategory.struggle, sStruggle) else b2
  let b4 := if sOrigins > b3.2 then (WikiCategory.origins, sOrigins) else b3
  if b4.2 = 0 then (WikiCategory.civilization, 0) else b4

/-- Result record of `computeScore`.  The human-readable `reason` diagnostic
string of the source is omitted from the model; no claim refers to it. -/
structure ScoreResult where
  score : Int
  rejected : Bool
  cat : WikiCategory
deriving DecidableEq, Repr

/-- `Math.round(s / 5)` for an integer `s` (floor of `s/5 + 1/2`; the float
computation of the source is exact enough that no rounding anomaly can occur
at representable magnitudes). -/
def roundDiv5 (s : Int) : Int := Int.fdiv (2 * s + 5) 10

/-- The lower-cased `` `${title} ${extract}` `` text. -/
def fullLower (title extract : List Char) : List Char :=
  toLowerStr (title ++ lstr " " ++ extract)

/-- Predicate: the combined text contains a memorial-site keyword. -/
def isMemorialText (full : List Char) : Bool :=
  MEMORIAL_KW.any (fun k => strHas full k)

/-- Church-noise rejection condition of `computeScore`. -/
def churchReject (full : List Char) : Bool :=
  countOccurrences full CHURCH_WORDS > 3 && !hasVerb full &&
    !((SHOCK_KW ++ STRUGGLE_KW).any (fun k => strHas full k))

/-- Sports-blacklist membership / memorial-exception tests. -/
def isSportText (full : List Char) : Bool :=
  SPORT_BLACKLIST.any (fun k => strHas full k)

def hasSportExceptionText (full : List Char) : Bool :=
  SPORT_EXCEPTIONS.any (fun k => strHas full k)

/-- Geographic-administrative keyword test. -/
def hasGeoKw (full : List Char) : Bool :=
  GEO_PENALTIES.any (fun kw => strHas full kw)

/-- Title category-keyword tests of the "Titre Royal" bonus (the source only
checks the shock, civilization and struggle lists). -/
def titleHasShockB (titleLower : List Char) : Bool :=
  SHOCK_KW.any (fun k => strHas titleLower k)

def titleHasCivB (titleLower : List Char) : Bool :=
  CIVILIZATION_KW.any (fun k => strHas titleLower k)

def titleHasStruggleB (titleLower : List Char) : Bool :=
  STRUGGLE_KW.any (fun k => strHas titleLower k)

/-- Truthiness of the extracted year in `computeScore`'s `!year` test: JS
treats both `null` and (-)0 as false. -/
def yearFalsyB (extract : List Char) : Bool :=
  match extractYear extract with
  | none => true
  | some y => y == 0

/-- `computeScore` of the source. -/
def computeScore (title extract : List Char) (langs : Nat) : ScoreResult :=
  let full := fullLower title extract
  if isMemorialText full then
    let impactHits : Int := kwHits IMPACT_KW full
    { score := (100 + impactHits * 15) * 10, rejected := false,
      cat := WikiCategory.shock }
  else if churchReject full then
    { score := 0, rejected := true, cat := WikiCategory.civilization }
  else if isSportText full = true ∧ hasSportExceptionText full = false ∧
      langs < 20 then
    { score := -100, rejected := true, cat := WikiCategory.civilization }
  else
    let cs := classify full
    let cat := cs.1
    let catScore := cs.2
    if hasGeoKw full = true ∧ ¬(0 < catScore) then
      { score := -15, rejected := true, cat := cat }
    else
      let score1 : Int := 10 + catScore
      let titleLower := toLowerStr title
      let titleBonus :=
        titleHasShockB titleLower || titleHasCivB titleLower ||
          titleHasStruggleB titleLower
      let score2 := if titleBonus then score1 + 500 else score1
      let score3 :=
        if isSportText full && !hasSportExceptionText full then score2 - 50
        else score2
      let score4 := if hasGeoKw full then score3 - 10 else score3
      let impactHits : Int := kwHits IMPACT_KW full
      let score5 := score4 + impactHits * 15
      let score6 := if hasVerb full then score5 + 10 else score5
      if yearFalsyB extract = true ∧ ¬(0 < catScore) then
        { score := 0, rejected := true, cat := cat }
      else
        let score7 := if extract.length > 200 then score6 + 5 else score6
        let score8 := if extract.length > 500 then score7 + 5 else score7
        let score9 :=
          if cat = WikiCategory.origins ∧ langs < 30 then roundDiv5 score8
          else score8
        { score := score9, rejected := false, cat := cat }

-- ─────────────────────────────────────────────────────────────────
--  TITRE & EXTRAIT
-- ─────────────────────────────────────────────────────────────────

/-- `formatTitle` of the source (a year value of exactly 0 satisfies neither
`year > 0` nor `year < 0` and falls through to the century-label path). -/
def formatTitle (rawTitle : List Char) (year : Option Int) (extract : List Char) :
    List Char :=
  let labelPath :=
    match formatCenturyLabel (rawTitle ++ lstr " " ++ extract) with
    | some l => lstr "(" ++ l ++ lstr ") " ++ rawTitle
    | none => rawTitle
  match year with
  | some y =>
    if 0 < y then lstr "(" ++ natToChars y.toNat ++ lstr ") " ++ rawTitle
    else if y < 0 then
      lstr "(" ++ natToChars y.natAbs ++ lstr " av. J.-C.) " ++ rawTitle
    else labelPath
  | none => labelPath

/-- Split on `/(?<=[.!?])\s+/`: whitespace runs preceded by a sentence-ending
punctuation character separate sentences (a trailing separator yields a final
empty sentence, as JS `split` does). -/
def splitGo (cur : List Char) (prev : Option Char) (inSep : Bool) :
    List Char → List (List Char)
  | [] => [cur.reverse]
  | c :: t =>
    if inSep then
      if isSpaceJS c then splitGo cur prev true t
      else splitGo [c] (some c) false t
    else
      if isSpaceJS c &&
          (match prev with
           | some p => p == '.' || p == '!' || p == '?'
           | none => false) then
        cur.reverse :: splitGo [] (some c) true t
      else splitGo (c :: cur) (some c) false t

def splitSentences (t : List Char) : List (List Char) := splitGo [] none false t

/-- The concatenated keyword list used by `trimExtract`. -/
def ALL_KW : List (List Char) :=
  SHOCK_KW ++ CIVILIZATION_KW ++ STRUGGLE_KW ++ ORIGINS_KW ++ IMPACT_KW

/-- `/\b\d{3,4}\b/.test(s) || /siècle/i.test(s)`. -/
def sentHasDate (s : List Char) : Bool :=
  !(yearScan false s).isEmpty || strHas (toLowerStr s) (lstr "siècle")

/-- Keyword-or-verb test on a lower-cased sentence. -/
def sentHasKw (sl : List Char) : Bool :=
  ALL_KW.any (fun k => strHas sl k) || hasVerb sl

/-- First keyword of `ALL_KW` that occurs in some sentence, returning the
index of the first such sentence. -/
def firstKwIdx : List (List Char) → List (List Char) → Option Nat
  | [], _ => none
  | kw :: rest, sents =>
    match sents.findIdx? (fun s => strHas (toLowerStr s) kw) with
    | some i => some i
    | none => firstKwIdx rest sents

/-- `trimExtract` of the source. -/
def trimExtract (extract : List Char) (year : Option Int) : List Char :=
  let sentences := splitSentences extract
  let branch3 :=
    match firstKwIdx ALL_KW sentences with
    | some i => (List.intercalate (lstr " ") (sentences.drop i)).take 500
    | none => extract.take 500
  let branch2 :=
    match year with
    | some y =>
      if 0 < y then
        let ys := natToChars y.toNat
        match sentences.findIdx? (fun s => strHas s ys) with
        | some i => (List.intercalate (lstr " ") (sentences.drop i)).take 500
        | none => branch3
      else branch3
    | none => branch3
  match sentences.findIdx?
      (fun s => sentHasDate s && sentHasKw (toLowerStr s)) with
  | some i => (List.intercalate (lstr " ") (sentences.drop i)).take 500
  | none => branch2

-- ─────────────────────────────────────────────────────────────────
--  DISCOVERY pipeline (pure core of fetchWikiEvents)
-- ─────────────────────────────────────────────────────────────────

/-- A geosearch / keyword-search candidate with resolved coordinates.
Coordinates are opaque pass-through values in the pipeline (no arithmetic is
ever performed on them), modelled as integers. -/
structure GeoResult where
  pageid : Nat
  title : List Char
  lat : Int
  lng : Int
deriving DecidableEq, Repr

/-- A fetched page extract record (`p.title ?? ""`, `p.extract ?? ""`). -/
structure PageXt where
  title : List Char
  extract : List Char
deriving DecidableEq, Repr

/-- `WikiEvent` of the source. -/
structure WikiEvent where
  id : Nat
  title : List Char
  description : List Char
  lat : Int
  lng : Int
  year : Option Int
  category : WikiCategory
  score : Int
  notorietyScore : Nat
  isIncontournable : Bool
deriving DecidableEq, Repr

def MAX_RESULTS : Nat := 30

/-- The scoring loop of `fetchWikiEvents` (step 3/5 of the orchestrator),
parametrised by the fetched data: `extracts` and `langCounts` model the
batch-fetched maps, `kwIds` the set of pageids found by keyword search, and
`adj` models the floating-point notoriety multiplier
`Math.round(base * (1 + Math.log2(Math.max(1, langs)) * 0.3))` applied to
non-memorial-boosted events (a real-valued computation abstracted as an
arbitrary function; no claim depends on its value). -/
def buildEvents (adj : Int → Nat → Int) (extracts : Nat → Option PageXt)
    (langCounts : Nat → Option Nat) (kwIds : Nat → Bool) :
    List GeoResult → List WikiEvent
  | [] => []
  | g :: rest =>
    let ext := extracts g.pageid
    let rawExtract := match ext with | some e => e.extract | none => []
    let rawTitle := match ext with | some e => e.title | none => g.title
    let langs := (langCounts g.pageid).getD 0
    let fromKw := kwIds g.pageid
    let r := computeScore rawTitle rawExtract langs
    if r.rejected then buildEvents adj extracts langCounts kwIds rest
    else
      let isAlreadyBoosted := r.score ≥ 1000
      let finalScore := if isAlreadyBoosted then r.score else adj r.score langs
      if r.cat = WikiCategory.origins && langs < 15 && !fromKw then
        buildEvents adj extracts langCounts kwIds rest
      else
        let year := extractYear rawExtract
        { id := g.pageid,
          title := formatTitle rawTitle year rawExtract,
          description := trimExtract rawExtract year,
          lat := g.lat, lng := g.lng, year := year, category := r.cat,
          score := finalScore, notorietyScore := langs,
          isIncontournable := fromKw } ::
          buildEvents adj extracts langCounts kwIds rest

/-- Descending-score ordering used by `scored.sort((a, b) => b.score - a.score)`. -/
def scoreGE (a b : WikiEvent) : Prop := b.score ≤ a.score

instance : DecidableRel scoreGE :=
  fun a b => inferInstanceAs (Decidable (b.score ≤ a.score))

instance : IsTotal WikiEvent scoreGE := ⟨fun a b => le_total b.score a.score⟩

instance : IsTrans WikiEvent scoreGE := ⟨fun _ _ _ h1 h2 => le_trans h2 h1⟩

/-- Steps 3–6 of `fetchWikiEvents` as a pure function of the fetched data:
score and filter every deduplicated candidate, sort by descending score and
keep the top `MAX_RESULTS`.  (The grid-cache early return yields `[]`, which
trivially satisfies every property proved below; the network fan-out only
determines the arguments of this function.) -/
def fetchWikiEventsPure (adj : Int → Nat → Int) (extracts : Nat → Option PageXt)
    (langCounts : Nat → Option Nat) (kwIds : Nat → Bool)
    (geoResults : List GeoResult) : List WikiEvent :=
  (List.insertionSort scoreGE
    (buildEvents adj extracts langCounts kwIds geoResults)).take MAX_RESULTS

example :
    computeScore (lstr "Rafle du Vel d'Hiv")
      (lstr "En 1942, les nazis ont déporté des milliers de prisonniers vers un camp de concentration.")
      5 =
    { score := 1150, rejected := false, cat := WikiCategory.shock } := by decide

example :
    (computeScore (lstr "dolmen") (lstr "") 100) =
    { score := 15, rejected := false, cat := WikiCategory.origins } := by decide

example :
    (computeScore (lstr "stade") (lstr "extermination") 5) =
    { score := 1000, rejected := false, cat := WikiCategory.shock } := by decide

example : (computeScore (lstr "stade") (lstr "") 5).rejected = true := by decide

-- ─────────────────────────────────────────────────────────────────
--  GAME ENGINE — quiz logic (masking, decoys, points)
-- ─────────────────────────────────────────────────────────────────

/-- `VERB_MAP` of the game engine (radical → displayed infinitive), in
insertion order (= `Object.keys` order). -/
def VERB_MAP : List (List Char × List Char) :=
  [(lstr "assassin", lstr "assassiner"), (lstr "proclam", lstr "proclamer"),
   (lstr "envahi", lstr "envahir"), (lstr "sign", lstr "signer"),
   (lstr "découvr", lstr "découvrir"), (lstr "soulev", lstr "se soulever"),
   (lstr "conqui", lstr "conquérir"), (lstr "détru", lstr "détruire"),
   (lstr "incendi", lstr "incendier"), (lstr "bombard", lstr "bombarder"),
   (lstr "libér", lstr "libérer"), (lstr "occup", lstr "occuper"),
   (lstr "exécut", lstr "exécuter"), (lstr "massacr", lstr "massacrer"),
   (lstr "fusill", lstr "fusiller"), (lstr "déport", lstr "déporter"),
   (lstr "resist", lstr "résister"), (lstr "revolt", lstr "se révolter"),
   (lstr "fond", lstr "fonder"), (lstr "constru", lstr "construire"),
   (lstr "érig", lstr "ériger"), (lstr "bâti", lstr "bâtir")]

/-- The radical scan of `extractActionVerbs` (push distinct infinitives in
lexicon order, stop at `maxCount`). -/
def actionVerbsGo (lower : List Char) (maxCount : Nat) :
    List (List Char × List Char) → List (List Char) → List (List Char)
  | [], found => found
  | (rad, inf) :: rest, found =>
    if found.length ≥ maxCount then found
    else if strHas lower rad && !found.contains inf then
      actionVerbsGo lower maxCount rest (found ++ [inf])
    else actionVerbsGo lower maxCount rest found

/-- `extractActionVerbs` of the game engine (default `maxCount = 3`). -/
def extractActionVerbs (description : List Char) : List (List Char) :=
  actionVerbsGo (toLowerStr description) 3 VERB_MAP []

/-- `STOP_WORDS` of `extractSignificantWords`. -/
def STOP_WORDS : List (List Char) :=
  [lstr "de", lstr "du", lstr "des", lstr "le", lstr "la", lstr "les",
   lstr "un", lstr "une", lstr "au", lstr "aux", lstr "en", lstr "et",
   lstr "ou", lstr "par", lstr "pour", lstr "sur", lstr "dans", lstr "avec",
   lstr "sans", lstr "sous", lstr "entre", lstr "vers", lstr "qui",
   lstr "que", lstr "dont", lstr "son", lstr "ses", lstr "leur", lstr "ce",
   lstr "cette", lstr "ces", lstr "est", lstr "été", lstr "sont",
   lstr "fut", lstr "ont"]

/-- Optional case-sensitive `\s*av\.?\s*J\.?-?C\.?` part of the year-prefix
patterns of the game engine (each optional piece is deterministic: taking it
is the only way the following literal can match). -/
def bceOpt (t : List Char) : Option (List Char) :=
  match t.dropWhile isSpaceJS with
  | 'a' :: 'v' :: t2 =>
    match (dropDot t2).dropWhile isSpaceJS with
    | 'J' :: t3 =>
      match dropDash (dropDot t3) with
      | 'C' :: t4 => some (dropDot t4)
      | _ => none
    | _ => none
  | _ => none

/-- One match of `\(\d{1,4}(?:\s*av\.?\s*J\.?-?C\.?)?\)\s*` starting at the
given position, returning the rest of the text after the match (trailing
`\s*` included).  The greedy digit quantifier can only succeed by taking the
whole run (1–4 digits); the optional BCE part is tried first, falling back to
a direct closing parenthesis. -/
def parenMatch (t : List Char) : Option (List Char) :=
  match t with
  | '(' :: t1 =>
    let run := t1.takeWhile isDigit
    if 1 ≤ run.length && run.length ≤ 4 then
      let rest := t1.drop run.length
      let direct : Option (List Char) :=
        match rest with
        | ')' :: r => some (r.dropWhile isSpaceJS)
        | _ => none
      match bceOpt rest with
      | some r2 =>
        match r2 with
        | ')' :: r => some (r.dropWhile isSpaceJS)
        | _ => direct
      | none => direct
    else none
  | _ => none

/-- One match of `\([IVXLCDM]+e(?:\s*av\.?\s*J\.?-?C\.?)?\)\s*` (the
Roman-numeral year prefix; the character class is case-sensitive). -/
def romanParen (t : List Char) : Option (List Char) :=
  match t with
  | '(' :: t1 =>
    let run := t1.takeWhile (fun c => ['I','V','X','L','C','D','M'].contains c)
    if 1 ≤ run.length then
      match t1.drop run.length with
      | 'e' :: r2 =>
        let direct : Option (List Char) :=
          match r2 with
          | ')' :: r => some (r.dropWhile isSpaceJS)
          | _ => none
        match bceOpt r2 with
        | some r3 =>
          match r3 with
          | ')' :: r => some (r.dropWhile isSpaceJS)
          | _ => direct
        | none => direct
      | _ => none
    else none
  | _ => none

/-- JS `String.prototype.trim`. -/
def trimJS (t : List Char) : List Char :=
  ((t.dropWhile isSpaceJS).reverse.dropWhile isSpaceJS).reverse

/-- The title-cleaning chain `.replace(/^\(\d{1,4}...\)\s*/, "")
.replace(/^\([IVXLCDM]+e...\)\s*/, "").trim()`, appearing identically in
`maskDescription`, `generateDecoys` and `cleanTitle` of the game engine. -/
def cleanTitle (t : List Char) : List Char :=
  trimJS ((romanParen ((parenMatch t).getD t)).getD ((parenMatch t).getD t))

/-- Global removal of year-parenthesis groups
(`.replace(/\(\d{1,4}(?:\s*av\.?\s*J\.?-?C\.?)?\)\s*/g, "")`); fuel-indexed
(each match consumes at least three characters). -/
def stripParensGlobF : Nat → List Char → List Char
  | _, [] => []
  | 0, s => s
  | f + 1, c :: t =>
    match parenMatch (c :: t) with
    | some rest => stripParensGlobF f rest
    | none => c :: stripParensGlobF f t

def stripParensGlob (t : List Char) : List Char := stripParensGlobF t.length t

/-- Characters of the split class `[\s''`-–—/,.:;]` of
`extractSignificantWords` (two ASCII apostrophes, a backtick, hyphen, en dash,
em dash and punctuation). -/
def isSepChar (c : Char) : Bool :=
  isSpaceJS c || c == Char.ofNat 39 || c == Char.ofNat 96 || c == '-' ||
  c == '–' || c == '—' || c == '/' || c == ',' || c == '.' || c == ':' ||
  c == ';'

/-- JS `split` on a `[...]+` class: pieces between maximal separator runs,
with empty pieces at a leading/trailing separator. -/
def splitSepGo (cur : List Char) (inSep : Bool) : List Char → List (List Char)
  | [] => [cur.reverse]
  | c :: t =>
    if isSepChar c then
      if inSep then splitSepGo cur true t
      else cur.reverse :: splitSepGo [] true t
    else splitSepGo (c :: cur) false t

def splitSep (t : List Char) : List (List Char) := splitSepGo [] false t

/-- The character class `[a-zA-ZÀ-ÿ]` kept by the word-stripping step (the
Latin-1 range À–ÿ literally includes × and ÷). -/
def isTitleLetter (c : Char) : Bool :=
  (65 ≤ c.toNat && c.toNat ≤ 90) || (97 ≤ c.toNat && c.toNat ≤ 122) ||
  (192 ≤ c.toNat && c.toNat ≤ 255)

/-- `extractSignificantWords` of the game engine. -/
def extractSignificantWords (title : List Char) : List (List Char) :=
  ((splitSep (stripParensGlob title)).map
    (fun w => w.filter isTitleLetter)).filter
    (fun w => w.length ≥ 4 && !STOP_WORDS.contains (toLowerStr w))

/-- The full-title mask token `██████` and the word mask token `████`. -/
def maskFull : List Char := lstr "██████"

def maskWord : List Char := lstr "████"

/-- The mask character. -/
def blk : Char := '█'

/-- A case-insensitive occurrence of `pat` starts at some position of the
text (i.e. `pat` CI-leads some suffix). -/
def containsOccCI (pat : List Char) : List Char → Bool
  | [] => ciLeads pat []
  | c :: t => ciLeads pat (c :: t) || containsOccCI pat t

/-- The word-boundary match condition of `\b<word>\b` at the head of the
text: `γ` is the character preceding the position (none at the string edge);
the right `\b` is evaluated between the last matched character and the
following character. -/
def bOccHead (w : List Char) (γ : Option Char) : List Char → Bool
  | [] => false
  | c :: t =>
    !w.isEmpty && ciLeads w (c :: t) && boundaryOC γ (some c) &&
      boundaryOC (some ((c :: t).getD (w.length - 1) c))
        ((c :: t).drop w.length).head?

/-- Some position of the text carries a `\b<word>\b` match; `γ` is the
character preceding the whole text. -/
def containsBOcc (w : List Char) : Option Char → List Char → Bool
  | _, [] => false
  | γ, c :: t => bOccHead w γ (c :: t) || containsBOcc w (some c) t

/-- Global case-insensitive replacement of a literal pattern
(`description.replace(new RegExp(escapeRegex(cleanTitle), "gi"), mask)`;
`escapeRegex` makes the pattern a literal, so the model matches it
literally).  Leftmost non-overlapping matches, scanned on the input;
fuel-indexed. -/
def replaceAllCIF (pat rep : List Char) : Nat → List Char → List Char
  | _, [] => []
  | 0, s => s
  | f + 1, c :: t =>
    if !pat.isEmpty && ciLeads pat (c :: t) then
      rep ++ replaceAllCIF pat rep f ((c :: t).drop pat.length)
    else c :: replaceAllCIF pat rep f t

def replaceAllCI (pat rep s : List Char) : List Char :=
  replaceAllCIF pat rep s.length s

/-- Global case-insensitive replacement of `\b<word>\b`
(`masked.replace(new RegExp("\\b" + escapeRegex(word) + "\\b", "gi"), mask)`).
`prev` is the character preceding the current position in the *input* (the JS
engine evaluates `\b` against the original string); on a match it becomes the
last matched input character.  Fuel-indexed. -/
def replaceWordCIF (w rep : List Char) : Nat → Option Char → List Char → List Char
  | _, _, [] => []
  | 0, _, s => s
  | f + 1, prev, c :: t =>
    if bOccHead w prev (c :: t) then
      rep ++ replaceWordCIF w rep f (some ((c :: t).getD (w.length - 1) c))
        ((c :: t).drop w.length)
    else c :: replaceWordCIF w rep f (some c) t

def replaceWordCI (w rep s : List Char) : List Char :=
  replaceWordCIF w rep s.length none s

/-- `maskDescription` of the game engine: mask the full clean title, then each
significant word of the title. -/
def maskDescription (description rawTitle : List Char) : List Char :=
  let cleanT := cleanTitle rawTitle
  let m1 :=
    if cleanT.length > 0 then replaceAllCI cleanT maskFull description
    else description
  (extractSignificantWords cleanT).foldl
    (fun acc w => replaceWordCI w maskWord acc) m1

-- ─────────────────────────────────────────────────────────────────
--  DECOYS, SHUFFLE, QUESTION ASSEMBLY
-- ─────────────────────────────────────────────────────────────────

/-- `[copy[i], copy[j]] = [copy[j], copy[i]]` on a list. -/
def listSwap {α : Type} (l : List α) (i j : Nat) : List α :=
  match l.get? i, l.get? j with
  | some a, some b => (l.set i b).set j a
  | _, _ => l

/-- Fisher–Yates loop of `shuffle`: `i` runs down from `length - 1` to 1 and
the random draw `Math.floor(Math.random() * (i + 1))` is modelled by an
arbitrary supplied list of numbers reduced modulo `i + 1`; quantifying over
that list covers every possible outcome of `Math.random`. -/
def fyGo {α : Type} : Nat → List Nat → List α → List α
  | 0, _, l => l
  | i + 1, js, l => fyGo i js.tail (listSwap l (i + 1) (js.headD 0 % (i + 2)))

def shuffleWith {α : Type} (js : List Nat) (l : List α) : List α :=
  fyGo (l.length - 1) js l

/-- `genericFallbacks` of `generateDecoys`. -/
def GENERIC_FALLBACKS : List (List Char) :=
  [lstr "Siège de Constantinople", lstr "Révolte des Canuts",
   lstr "Traité de Westphalie", lstr "Bataille de Verdun",
   lstr "Massacre de Wounded Knee", lstr "Chute de l'Empire romain",
   lstr "Croisade des Albigeois", lstr "Déclaration de Balfour"]

/-- Pool phase of `generateDecoys`: push unused cleaned titles (tracking
lower-cased titles in `used`) until 3 decoys are collected. -/
def addDecoys : List WikiEvent → List (List Char) → List (List Char) →
    List (List Char) × List (List Char)
  | [], used, decoys => (used, decoys)
  | e :: rest, used, decoys =>
    if decoys.length ≥ 3 then (used, decoys)
    else
      let cl := cleanTitle e.title
      if used.contains (toLowerStr cl) then addDecoys rest used decoys
      else addDecoys rest (toLowerStr cl :: used) (decoys ++ [cl])

/-- Fallback phase of `generateDecoys` (the `while` loop over
`genericFallbacks`). -/
def addFallbacks : List (List Char) → List (List Char) → List (List Char) →
    List (List Char)
  | [], _, decoys => decoys
  | fb :: rest, used, decoys =>
    if decoys.length ≥ 3 then decoys
    else if used.contains (toLowerStr fb) then addFallbacks rest used decoys
    else addFallbacks rest (toLowerStr fb :: used) (decoys ++ [fb])

/-- `generateDecoys` of the game engine (`count = 3`); `js1`, `js2` drive the
two independent shuffles. -/
def generateDecoys (correctEvent : WikiEvent) (pool : List WikiEvent)
    (js1 js2 : List Nat) : List (List Char) :=
  let correctClean := toLowerStr (cleanTitle correctEvent.title)
  let sameCategory := pool.filter (fun e =>
    e.id != correctEvent.id && e.category == correctEvent.category &&
      toLowerStr (cleanTitle e.title) != correctClean)
  let otherCategory := pool.filter (fun e =>
    e.id != correctEvent.id && !(e.category == correctEvent.category) &&
      toLowerStr (cleanTitle e.title) != correctClean)
  let shuffled := shuffleWith js1 sameCategory ++ shuffleWith js2 otherCategory
  let ud := addDecoys shuffled [correctClean] []
  (addFallbacks GENERIC_FALLBACKS ud.1 ud.2).take 3

inductive Difficulty where
  | easy
  | hard
deriving DecidableEq, Repr

structure QuizHints where
  category : WikiCategory
  year : Option Int
  actions : List (List Char)
deriving DecidableEq, Repr

structure QuizQuestion where
  eventId : List Char
  correctTitle : List Char
  maskedDescription : List Char
  hints : QuizHints
  options : List (List Char)
  difficulty : Difficulty
deriving DecidableEq, Repr

/-- `prepareQuizQuestion` of the game engine; `js1 js2 js3` drive the three
internal shuffles (two in `generateDecoys`, one for the options). -/
def prepareQuizQuestion (event : WikiEvent) (pool : List WikiEvent)
    (difficulty : Difficulty) (js1 js2 js3 : List Nat) : QuizQuestion :=
  let correctTitle := cleanTitle event.title
  let decoys := generateDecoys event pool js1 js2
  { eventId := natToChars event.id,
    correctTitle := correctTitle,
    maskedDescription := maskDescription event.description event.title,
    hints := { category := event.category, year := event.year,
               actions := extractActionVerbs event.description },
    options := shuffleWith js3 (correctTitle :: decoys),
    difficulty := difficulty }

structure QuizResult where
  points : Int
  hintsUsed : Nat
  wasQCM : Bool
  correct : Bool
deriving DecidableEq, Repr

/-- `Math.round(p * 0.5)` for an integer `p`: the product is exactly
representable and `Math.round` is floor of `x + 1/2`, i.e. `⌊(p + 1) / 2⌋`
(Lean's `Int` division by a positive divisor is floor division). -/
def roundHalf (p : Int) : Int := (p + 1) / 2

/-- `calculatePoints` of the game engine. -/
def calculatePoints (correct : Bool) (hintsUsed : Nat) (wasQCM : Bool) :
    QuizResult :=
  if !correct then
    { points := 0, hintsUsed := hintsUsed, wasQCM := wasQCM, correct := false }
  else
    let points1 : Int := 100 - hintsUsed * 30
    let points2 := if wasQCM then roundHalf points1 else points1
    { points := max 10 points2, hintsUsed := hintsUsed, wasQCM := wasQCM,
      correct := true }

example : (calculatePoints true 2 false).points = 40 := by decide
example : (calculatePoints true 3 true).points = 10 := by decide
example : (calculatePoints true 0 true).points = 50 := by decide
example : (calculatePoints false 2 true).points = 0 := by decide
example : cleanTitle (lstr "(1942) Rafle du Vel d'Hiv") =
    lstr "Rafle du Vel d'Hiv" := by decide
example : cleanTitle (lstr "(480 av. J.-C.) Bataille des Thermopyles") =
    lstr "Bataille des Thermopyles" := by decide
example : cleanTitle (lstr "(XVIe) Massacre de la Saint-Barthélemy") =
    lstr "Massacre de la Saint-Barthélemy" := by decide
example : extractSignificantWords (lstr "Rafle du Vel d'Hiv") =
    [lstr "Rafle"] := by decide
example : extractSignificantWords (lstr "Massacre de la Saint-Barthélemy") =
    [lstr "Massacre", lstr "Saint", lstr "Barthélemy"] := by decide
example : maskDescription (lstr "Le massacre eut lieu.") (lstr "Massacre") =
    lstr "Le ██████ eut lieu." := by decide
example :
    maskDescription (lstr "███") (lstr "██") = lstr "███████" := by decide
example :
    maskDescription (lstr "███████") (lstr "██") =
      lstr "███████████████████" := by decide

-- ─────────────────────────────────────────────────────────────────
--  HELPER LEMMAS
-- ─────────────────────────────────────────────────────────────────

theorem lookup_val_mem {α β : Type} [BEq α] :
    ∀ (l : List (α × β)) (k : α) (v : β),
      l.lookup k = some v → v ∈ l.map Prod.snd := by
  intro l
  induction l with
  | nil => intro k v h; simp [List.lookup] at h
  | cons p rest ih =>
    intro k v h
    rw [List.lookup] at h
    by_cases hb : (k == p.1) = true
    · simp [hb] at h; simp [h]
    · rw [Bool.not_eq_true] at hb
      rw [hb] at h
      exact List.mem_cons_of_mem _ (ih k v h)

theorem romanLookup_bounds (g : List Char) (n : Nat)
    (h : romanLookup g = some n) : 1 ≤ n ∧ n ≤ 21 := by
  have hm := lookup_val_mem _ _ _ h
  simp only [ROMAN_TABLE, List.map, List.mem_cons, List.not_mem_nil,
    or_false] at hm
  omega

theorem foldl_min_ge (m : Nat) :
    ∀ (ys : List Nat) (y0 : Nat), m ≤ y0 → (∀ z ∈ ys, m ≤ z) →
      m ≤ ys.foldl min y0 := by
  intro ys
  induction ys with
  | nil => intro y0 h0 _; exact h0
  | cons z zs ih =>
    intro y0 h0 hz
    exact ih _ (le_min h0 (hz z (by simp))) (fun w hw => hz w (by simp [hw]))

-- ─────────────────────────────────────────────────────────────────
--  CLAIM THEOREMS
-- ─────────────────────────────────────────────────────────────────

/-- C1: for every title, extract and language-edition count whose combined
lowercased text contains a memorial-site keyword, `computeScore` returns
category shock, score `(100 + impactHits*15) * 10` where `impactHits` counts
the distinct impact keywords present, and `rejected = false`; in particular
the score is always ≥ 1000. -/
theorem computeScore_memorial_boost (title extract : List Char) (langs : Nat)
    (h : isMemorialText (fullLower title extract) = true) :
    computeScore title extract langs =
      { score := (100 + (kwHits IMPACT_KW (fullLower title extract) : Int) * 15) * 10,
        rejected := false, cat := WikiCategory.shock } ∧
    1000 ≤ (computeScore title extract langs).score := by
  have heq : computeScore title extract langs =
      { score := (100 + (kwHits IMPACT_KW (fullLower title extract) : Int) * 15) * 10,
        rejected := false, cat := WikiCategory.shock } := by
    simp only [computeScore, h, if_true]
  refine ⟨heq, ?_⟩
  rw [heq]
  dsimp only
  have : (0 : Int) ≤ (kwHits IMPACT_KW (fullLower title extract) : Int) :=
    Int.ofNat_nonneg _
  nlinarith

/-- C1 witness: concrete memorial-boosted input. -/
theorem computeScore_memorial_boost_witness :
    computeScore (lstr "shoah") (lstr "") 0 =
      { score := (100 + (kwHits IMPACT_KW (fullLower (lstr "shoah") (lstr "")) : Int) * 15) * 10,
        rejected := false, cat := WikiCategory.shock } ∧
    1000 ≤ (computeScore (lstr "shoah") (lstr "") 0).score :=
  computeScore_memorial_boost (lstr "shoah") (lstr "") 0 (by decide)

/-- C2: for every outcome of the network fan-out (candidates, extracts,
language counts, keyword-search ids) and every notoriety-multiplier function,
the list returned by the pure core of `fetchWikiEvents` is sorted in
non-increasing order of `score` and has length at most 30. -/
theorem fetchWikiEvents_ranked_top30 (adj : Int → Nat → Int)
    (extracts : Nat → Option PageXt) (langCounts : Nat → Option Nat)
    (kwIds : Nat → Bool) (geoResults : List GeoResult) :
    List.Sorted scoreGE
        (fetchWikiEventsPure adj extracts langCounts kwIds geoResults) ∧
    (fetchWikiEventsPure adj extracts langCounts kwIds geoResults).length ≤ 30 := by
  constructor
  · exact List.Pairwise.sublist (List.take_sublist _ _)
      (List.sorted_insertionSort scoreGE _)
  · exact List.length_take_le _ _

/-- C7: for every mode, `calculatePoints true · wasQCM` is monotonically
non-increasing in the number of hints used, and never returns fewer than 10
points. -/
theorem calculatePoints_hint_monotone (wasQCM : Bool) (h1 h2 : Nat)
    (hle : h1 ≤ h2) :
    (calculatePoints true h2 wasQCM).points ≤
        (calculatePoints true h1 wasQCM).points ∧
    ∀ h : Nat, 10 ≤ (calculatePoints true h wasQCM).points := by
  have hmain : ∀ a b : Nat, a ≤ b →
      (calculatePoints true b wasQCM).points ≤
        (calculatePoints true a wasQCM).points := by
    intro a b hab
    simp only [calculatePoints, Bool.not_true, Bool.false_eq_true, if_false]
    have hbase : (100 : Int) - (b : Int) * 30 ≤ 100 - (a : Int) * 30 := by
      have : (a : Int) ≤ (b : Int) := Int.ofNat_le.mpr hab
      nlinarith
    cases wasQCM with
    | false => simpa using max_le_max (le_refl (10 : Int)) hbase
    | true =>
      have : roundHalf (100 - (b : Int) * 30) ≤
          roundHalf (100 - (a : Int) * 30) := by
        unfold roundHalf
        exact Int.ediv_le_ediv (by decide) (by omega)
      simpa using max_le_max (le_refl (10 : Int)) this
  refine ⟨hmain h1 h2 hle, ?_⟩
  intro h
  simp only [calculatePoints, Bool.not_true, Bool.false_eq_true, if_false]
  exact le_max_left _ _

/-- C7 witness: the monotonicity and floor at concrete inputs. -/
theorem calculatePoints_hint_monotone_witness :
    ((calculatePoints true 3 true).points ≤ (calculatePoints true 1 true).points ∧
      ∀ h : Nat, 10 ≤ (calculatePoints true h true).points) :=
  calculatePoints_hint_monotone true 1 3 (by decide)

/-- C10 counterexample: on the text "0 av. J.-C." the BCE pattern matches the
number 0 and `extractYear` returns 0 (JS `-0`), not `null` and not a nonzero
integer. -/
theorem extractYear_zero_cex :
    extractYear (lstr "0 av. J.-C.") = some 0 ∧
    bcYearScan (lstr "0 av. J.-C.") = some 0 ∧
    ¬extractYear (lstr "0 av. J.-C.") = none := by decide

/-- C10 (amended): every value returned by `extractYear` is negative, at
least 50, or the value 0 arising exactly when the BCE pattern matched the
digit string 0; hence the truthiness test of `computeScore` (which treats
both `null` and 0 as "no date") coincides with the null test except on that
zero-BCE case. -/
theorem extractYear_range (t : List Char) (y : Int)
    (h : extractYear t = some y) :
    y < 0 ∨ 50 ≤ y ∨ (y = 0 ∧ bcYearScan t = some 0) := by
  unfold extractYear at h
  cases hbc : bcYearScan t with
  | some n =>
    rw [hbc] at h
    simp only [Option.some.injEq] at h
    rcases Nat.eq_zero_or_pos n with h0 | hp
    · right; right
      subst h0
      exact ⟨by omega, rfl⟩
    · left; omega
  | none =>
    rw [hbc] at h
    cases hir : inRangeYears t with
    | cons y0 ys =>
      rw [hir] at h
      simp only [Option.some.injEq] at h
      right; left
      have hy0 : 100 ≤ y0 := by
        have : y0 ∈ inRangeYears t := by rw [hir]; exact List.mem_cons_self _ _
        unfold inRangeYears at this
        have := (List.mem_filter.mp this).2
        simp at this
        omega
      have hys : ∀ z ∈ ys, 100 ≤ z := by
        intro z hz
        have : z ∈ inRangeYears t := by
          rw [hir]; exact List.mem_cons_of_mem _ hz
        unfold inRangeYears at this
        have := (List.mem_filter.mp this).2
        simp at this
        omega
      have := foldl_min_ge 100 ys y0 hy0 hys
      omega
    | nil =>
      rw [hir] at h
      unfold extractCenturyYear at h
      have harab : ∀ y' : Int, centuryArab t = some y' → 50 ≤ y' := by
        intro y' h'
        unfold centuryArab at h'
        cases ha : arabCentScan none t with
        | some n =>
          rw [ha] at h'
          simp only [] at h'
          split at h'
          · simp only [Option.some.injEq] at h'
            rename_i hn
            simp at hn
            omega
          · exact absurd h' (by simp)
        | none => rw [ha] at h'; exact absurd h' (by simp)
      have hce : ∀ y' : Int, centuryCE t = some y' → 50 ≤ y' := by
        intro y' h'
        unfold centuryCE at h'
        cases hr : romanScan false none t with
        | some g =>
          simp only [hr] at h'
          cases hl : romanLookup (toUpperStr g) with
          | some n =>
            simp only [hl, Option.some.injEq] at h'
            have := romanLookup_bounds _ _ hl
            omega
          | none => simp only [hl] at h'; exact harab _ h'
        | none => simp only [hr] at h'; exact harab _ h'
      cases hr : romanScan true none t with
      | some g =>
        simp only [hr] at h
        cases hl : romanLookup (toUpperStr g) with
        | some n =>
          simp only [hl, Option.some.injEq] at h
          have := romanLookup_bounds _ _ hl
          left; omega
        | none =>
          simp only [hl] at h
          right; left; exact hce _ h
      | none =>
        simp only [hr] at h
        right; left; exact hce _ h

/-- C10 witness: the range theorem at a concrete input. -/
theorem extractYear_range_witness :
    (1515 : Int) < 0 ∨ (50 : Int) ≤ 1515 ∨
      ((1515 : Int) = 0 ∧ bcYearScan (lstr "1515") = some 0) :=
  extractYear_range (lstr "1515") 1515 (by decide)

theorem centuryArab_ge (t : List Char) (y : Int)
    (h : centuryArab t = some y) : 50 ≤ y := by
  unfold centuryArab at h
  cases ha : arabCentScan none t with
  | some n =>
    simp only [ha] at h
    split at h
    · simp only [Option.some.injEq] at h
      rename_i hn
      simp at hn
      omega
    · exact absurd h (by simp)
  | none => simp only [ha] at h; exact absurd h (by simp)

theorem centuryCE_ge (t : List Char) (y : Int)
    (h : centuryCE t = some y) : 50 ≤ y := by
  unfold centuryCE at h
  cases hr : romanScan false none t with
  | some g =>
    simp only [hr] at h
    cases hl : romanLookup (toUpperStr g) with
    | some n =>
      simp only [hl, Option.some.injEq] at h
      have := romanLookup_bounds _ _ hl
      omega
    | none => simp only [hl] at h; exact centuryArab_ge _ _ h
  | none => simp only [hr] at h; exact centuryArab_ge _ _ h

/-- C4 counterexample: the text "5e siècle av. J.-C." contains no explicit
BCE year pattern and no in-range 3–4 digit number, its century notation is
the Arabic ordinal 5 suffixed by a BCE marker, yet `extractYear` returns the
*positive* midpoint 450 rather than -450: the Arabic-ordinal branch has no
BCE case. -/
theorem extractYear_century_cex :
    bcYearScan (lstr "5e siècle av. J.-C.") = none ∧
    inRangeYears (lstr "5e siècle av. J.-C.") = [] ∧
    arabCentScan none (lstr "5e siècle av. J.-C.") = some 5 ∧
    strHas (toLowerStr (lstr "5e siècle av. J.-C.")) (lstr "siècle av") = true ∧
    extractYear (lstr "5e siècle av. J.-C.") = some 450 ∧
    ¬extractYear (lstr "5e siècle av. J.-C.") = some (-450) := by decide

/-- C4 (amended): for texts with no explicit BCE year pattern and no in-range
3–4 digit number, `extractYear` resolves to `extractCenturyYear`; the result
is negated only on the Roman-numeral-with-BCE-marker branch, the CE Roman
branch yields the positive midpoint `n*100 - 50`, and the Arabic-ordinal
branch (1–21) yields the positive midpoint even when a BCE marker follows. -/
theorem extractYear_century_midpoint (t : List Char)
    (h1 : bcYearScan t = none) (h2 : inRangeYears t = []) :
    extractYear t = extractCenturyYear t ∧
    (∀ y : Int, extractCenturyYear t = some y → y < 0 →
      ∃ g n, romanScan true none t = some g ∧
        romanLookup (toUpperStr g) = some n ∧ y = -((n : Int) * 100 - 50)) ∧
    (∀ g n, romanScan true none t = none → romanScan false none t = some g →
      romanLookup (toUpperStr g) = some n →
      extractYear t = some ((n : Int) * 100 - 50)) ∧
    (∀ n : Nat, romanScan true none t = none → romanScan false none t = none →
      arabCentScan none t = some n → 1 ≤ n → n ≤ 21 →
      extractYear t = some ((n : Int) * 100 - 50)) := by
  have hbase : extractYear t = extractCenturyYear t := by
    simp only [extractYear, h1, h2]
  refine ⟨hbase, ?_, ?_, ?_⟩
  · intro y hy hneg
    unfold extractCenturyYear at hy
    cases hr : romanScan true none t with
    | some g =>
      simp only [hr] at hy
      cases hl : romanLookup (toUpperStr g) with
      | some n =>
        simp only [hl, Option.some.injEq] at hy
        exact ⟨g, n, rfl, hl, hy.symm⟩
      | none =>
        simp only [hl] at hy
        exact absurd (centuryCE_ge _ _ hy) (by omega)
    | none =>
      simp only [hr] at hy
      exact absurd (centuryCE_ge _ _ hy) (by omega)
  · intro g n hrt hrf hl
    rw [hbase]
    unfold extractCenturyYear
    simp only [hrt]
    unfold centuryCE
    simp only [hrf, hl]
  · intro n hrt hrf ha hn1 hn21
    rw [hbase]
    unfold extractCenturyYear
    simp only [hrt]
    unfold centuryCE
    simp only [hrf]
    unfold centuryArab
    simp only [ha]
    rw [if_pos (by simp [hn1, hn21])]

/-- C4 witness: the Roman-numeral CE century "XVIe siècle" yields 1550. -/
theorem extractYear_century_midpoint_witness :
    extractYear (lstr "XVIe siècle") = some ((16 : Int) * 100 - 50) :=
  (extractYear_century_midpoint (lstr "XVIe siècle") (by decide)
    (by decide)).2.2.1 (lstr "XVI") 16 (by decide) (by decide) (by decide)

/-- C5 counterexample: the combined text "stade extermination" contains the
sports keyword "stade", none of the memorial-*exception* keywords, and the
language count 5 is below 20 — yet `computeScore` does *not* reject it: the
memorial keyword "extermination" triggers the higher-priority memorial boost
(the memorial keyword list is not a subset of the sport-exception list). -/
theorem computeScore_sport_reject_cex :
    isSportText (fullLower (lstr "stade") (lstr "extermination")) = true ∧
    hasSportExceptionText (fullLower (lstr "stade") (lstr "extermination")) = false ∧
    (5 : Nat) < 20 ∧
    (computeScore (lstr "stade") (lstr "extermination") 5).rejected = false := by
  refine ⟨by decide, by decide, by decide, by decide⟩

/-- C5 (amended): for every title, extract and language-edition count whose
combined lowercased text contains a sports-blacklist keyword, no
memorial-exception keyword and also no memorial-boost keyword, and whose
language count is below 20, `computeScore` rejects the candidate. -/
theorem computeScore_sport_reject (title extract : List Char) (langs : Nat)
    (hs : isSportText (fullLower title extract) = true)
    (he : hasSportExceptionText (fullLower title extract) = false)
    (hl : langs < 20)
    (hm : isMemorialText (fullLower title extract) = false) :
    (computeScore title extract langs).rejected = true := by
  unfold computeScore
  cases hcr : churchReject (fullLower title extract) <;>
    simp [hm, hcr, hs, he, hl]

/-- C5 witness: a concrete obscure sports article is rejected. -/
theorem computeScore_sport_reject_witness :
    (computeScore (lstr "stade") (lstr "") 0).rejected = true :=
  computeScore_sport_reject (lstr "stade") (lstr "") 0 (by decide) (by decide)
    (by decide) (by decide)

/-- All additive contributions of the base-scoring step of `computeScore`
except the +500 title bonus (used to isolate the bonus for claim C3). -/
def scoreSansBonus (title extract : List Char) : Int :=
  let full := fullLower title extract
  10 + (classify full).2 +
    (if isSportText full && !hasSportExceptionText full then -50 else 0) +
    (if hasGeoKw full then -10 else 0) +
    (kwHits IMPACT_KW full : Int) * 15 +
    (if hasVerb full then 10 else 0) +
    (if extract.length > 200 then 5 else 0) +
    (if extract.length > 500 then 5 else 0)

/-- The title-bonus condition the source actually implements: a keyword of
the shock, civilization or struggle lists occurs in the lowercased title
(origins keywords are not checked). -/
def titleRoyalB (title : List Char) : Bool :=
  titleHasShockB (toLowerStr title) || titleHasCivB (toLowerStr title) ||
    titleHasStruggleB (toLowerStr title)

/-- C3 counterexample: the title "dolmen" is itself an origins category
keyword, the candidate reaches the base-scoring step and is not rejected,
yet its score is 15 — no +500 title bonus is added, because the source only
checks the shock, civilization and struggle keyword lists in the title. -/
theorem computeScore_title_bonus_cex :
    (lstr "dolmen") ∈ ORIGINS_KW ∧
    strHas (toLowerStr (lstr "dolmen")) (lstr "dolmen") = true ∧
    isMemorialText (fullLower (lstr "dolmen") (lstr "")) = false ∧
    churchReject (fullLower (lstr "dolmen") (lstr "")) = false ∧
    isSportText (fullLower (lstr "dolmen") (lstr "")) = false ∧
    hasGeoKw (fullLower (lstr "dolmen") (lstr "")) = false ∧
    (computeScore (lstr "dolmen") (lstr "") 100).rejected = false ∧
    (computeScore (lstr "dolmen") (lstr "") 100).score = 15 ∧
    ¬(500 ≤ (computeScore (lstr "dolmen") (lstr "") 100).score) := by
  refine ⟨by decide, by decide, by decide, by decide, by decide, by decide,
    by decide, by decide, by decide⟩

/-- C3 (amended): for every candidate that reaches the base-scoring step and
is not rejected there (no geo/no-date rejection) and does not undergo the
minor-origins division, the returned score is the sum of all other
contributions plus exactly 500 if a keyword of the shock, civilization or
struggle lists (not the origins list) occurs in the lowercased title, and
plus nothing otherwise. -/
theorem computeScore_title_bonus (title extract : List Char) (langs : Nat)
    (hm : isMemorialText (fullLower title extract) = false)
    (hc : churchReject (fullLower title extract) = false)
    (hs : isSportText (fullLower title extract) = true →
      hasSportExceptionText (fullLower title extract) = false → 20 ≤ langs)
    (hg : hasGeoKw (fullLower title extract) = true →
      0 < (classify (fullLower title extract)).2)
    (hy : yearFalsyB extract = true →
      0 < (classify (fullLower title extract)).2)
    (ho : ¬((classify (fullLower title extract)).1 = WikiCategory.origins ∧
      langs < 30)) :
    (computeScore title extract langs).rejected = false ∧
    (computeScore title extract langs).score =
      scoreSansBonus title extract +
        (if titleRoyalB title then 500 else 0) := by
  unfold computeScore
  simp only [hm, hc, Bool.false_eq_true, if_false]
  rw [if_neg (by rintro ⟨a, b, c⟩; have := hs a b; omega)]
  rw [if_neg (by rintro ⟨a, b⟩; exact b (hg a))]
  rw [if_neg (by rintro ⟨a, b⟩; exact b (hy a))]
  rw [if_neg ho]
  unfold scoreSansBonus titleRoyalB
  refine ⟨rfl, ?_⟩
  dsimp only
  split_ifs <;> omega

/-- C3 witness: the amended theorem at the "dolmen" input (origins keyword in
the title, no bonus). -/
theorem computeScore_title_bonus_witness :
    (computeScore (lstr "dolmen") (lstr "") 100).rejected = false ∧
    (computeScore (lstr "dolmen") (lstr "") 100).score =
      scoreSansBonus (lstr "dolmen") (lstr "") +
        (if titleRoyalB (lstr "dolmen") then 500 else 0) :=
  computeScore_title_bonus (lstr "dolmen") (lstr "") 100 (by decide)
    (by decide) (by decide) (by decide) (by decide) (by decide)

theorem trimExtract_le_500 (extract : List Char) (year : Option Int) :
    (trimExtract extract year).length ≤ 500 := by
  unfold trimExtract
  dsimp only
  repeat' split
  all_goals exact List.length_take_le _ _

theorem buildEvents_desc_eq (adj : Int → Nat → Int)
    (extracts : Nat → Option PageXt) (langCounts : Nat → Option Nat)
    (kwIds : Nat → Bool) :
    ∀ (gs : List GeoResult) (ev : WikiEvent),
      ev ∈ buildEvents adj extracts langCounts kwIds gs →
      ∃ e y, ev.description = trimExtract e y := by
  intro gs
  induction gs with
  | nil => intro ev h; simp [buildEvents] at h
  | cons g rest ih =>
    intro ev h
    simp only [buildEvents] at h
    split at h
    · exact ih ev h
    · split at h
      · exact ih ev h
      · rcases List.mem_cons.mp h with heq | hmem
        · subst heq; exact ⟨_, _, rfl⟩
        · exact ih ev hmem

/-- C9: `trimExtract` always returns at most 500 characters, and consequently
every event produced by the pure core of `fetchWikiEvents` has a description
of at most 500 characters. -/
theorem fetchWikiEvents_desc_le_500 (adj : Int → Nat → Int)
    (extracts : Nat → Option PageXt) (langCounts : Nat → Option Nat)
    (kwIds : Nat → Bool) (geoResults : List GeoResult) :
    (∀ e y, (trimExtract e y).length ≤ 500) ∧
    (∀ ev ∈ fetchWikiEventsPure adj extracts langCounts kwIds geoResults,
      ev.description.length ≤ 500) := by
  refine ⟨fun e y => trimExtract_le_500 e y, fun ev h => ?_⟩
  unfold fetchWikiEventsPure at h
  have h2 := List.mem_of_mem_take h
  have h3 := (List.perm_insertionSort scoreGE _).mem_iff.mp h2
  obtain ⟨e, y, hdesc⟩ :=
    buildEvents_desc_eq adj extracts langCounts kwIds _ ev h3
  rw [hdesc]
  exact trimExtract_le_500 e y

def wAdj : Int → Nat → Int := fun b _ => b

def wEx : Nat → Option PageXt :=
  fun _ => some { title := lstr "massacre", extract := lstr "" }

def wLg : Nat → Option Nat := fun _ => some 20

def wKw : Nat → Bool := fun _ => false

def wEv0 : WikiEvent :=
  { id := 0, title := [], description := [], lat := 0, lng := 0, year := none,
    category := WikiCategory.shock, score := 0, notorietyScore := 0,
    isIncontournable := false }

/-- C9 witness: the description bound on a concrete one-candidate pipeline
run. -/
theorem fetchWikiEvents_desc_le_500_witness :
    ((fetchWikiEventsPure wAdj wEx wLg wKw
        [{ pageid := 1, title := lstr "x", lat := 0, lng := 0 }]).headD
      wEv0).description.length ≤ 500 :=
  (fetchWikiEvents_desc_le_500 wAdj wEx wLg wKw
    [{ pageid := 1, title := lstr "x", lat := 0, lng := 0 }]).2 _ (by decide)

theorem length_listSwap {α : Type} (l : List α) (i j : Nat) :
    (listSwap l i j).length = l.length := by
  unfold listSwap
  cases h1 : l.get? i <;> cases h2 : l.get? j <;> simp [List.length_set]

theorem count_listSwap {α : Type} [DecidableEq α] (l : List α) (i j : Nat)
    (a : α) : (listSwap l i j).count a = l.count a := by
  unfold listSwap
  cases h1 : l.get? i with
  | none => rfl
  | some x =>
    cases h2 : l.get? j with
    | none => rfl
    | some y =>
      rw [List.get?_eq_getElem?] at h1 h2
      obtain ⟨hi, hxi⟩ := List.getElem?_eq_some.mp h1
      obtain ⟨hj, hyj⟩ := List.getElem?_eq_some.mp h2
      have hj' : j < (l.set i y).length := by simpa using hj
      rw [List.count_set x a (l.set i y) j hj']
      rw [List.count_set y a l i hi]
      rw [List.getElem_set hj']
      have hposi : l[i] = a → 0 < l.count a := by
        intro he; rw [List.count_pos_iff, ← he]; exact List.getElem_mem hi
      have hposj : l[j] = a → 0 < l.count a := by
        intro he; rw [List.count_pos_iff, ← he]; exact List.getElem_mem hj
      subst hxi
      by_cases hij : i = j
      · subst hij
        rw [if_pos rfl]
        rw [← hyj]
        by_cases hpa : l[i] = a
        · have hc := hposi hpa
          simp [hpa, beq_iff_eq]
          omega
        · simp [hpa, beq_iff_eq]
      · rw [if_neg hij]
        subst hyj
        by_cases hpa : l[i] = a
        · have hc := hposi hpa
          by_cases hqa : l[j] = a <;> simp [hpa, hqa, beq_iff_eq] <;> omega
        · by_cases hqa : l[j] = a
          · simp [hpa, hqa, beq_iff_eq]
          · simp [hpa, hqa, beq_iff_eq]

theorem length_fyGo {α : Type} :
    ∀ (n : Nat) (js : List Nat) (l : List α), (fyGo n js l).length = l.length := by
  intro n
  induction n with
  | zero => intro js l; rfl
  | succ i ih =>
    intro js l
    rw [fyGo, ih, length_listSwap]

theorem count_fyGo {α : Type} [DecidableEq α] :
    ∀ (n : Nat) (js : List Nat) (l : List α) (a : α),
      (fyGo n js l).count a = l.count a := by
  intro n
  induction n with
  | zero => intro js l a; rfl
  | succ i ih =>
    intro js l a
    rw [fyGo, ih, count_listSwap]

theorem perm_shuffleWith {α : Type} [DecidableEq α] (js : List Nat)
    (l : List α) : (shuffleWith js l).Perm l := by
  apply List.perm_iff_count.mpr
  intro a
  exact count_fyGo _ _ _ _

theorem perm_count {α : Type} [BEq α] {l1 l2 : List α} (h : l1.Perm l2)
    (a : α) : l1.count a = l2.count a := by
  induction h with
  | nil => rfl
  | cons x _ ih => simp [List.count_cons, ih]
  | swap x y l => simp [List.count_cons]; omega
  | trans _ _ ih1 ih2 => exact ih1.trans ih2

theorem containsStr_iff (l : List (List Char)) (x : List Char) :
    l.contains x = true ↔ x ∈ l := by
  show l.elem x = true ↔ x ∈ l
  exact List.elem_iff

theorem addDecoys_inv (cc : List Char) :
    ∀ (pool : List WikiEvent) (used decoys : List (List Char)),
      used.length = decoys.length + 1 →
      decoys.length ≤ 3 →
      used.Nodup →
      cc ∈ used →
      (∀ d ∈ decoys, toLowerStr d ∈ used) →
      (decoys.map toLowerStr).Nodup →
      cc ∉ decoys.map toLowerStr →
      (addDecoys pool used decoys).1.length =
          (addDecoys pool used decoys).2.length + 1 ∧
        (addDecoys pool used decoys).2.length ≤ 3 ∧
        (addDecoys pool used decoys).1.Nodup ∧
        cc ∈ (addDecoys pool used decoys).1 ∧
        (∀ d ∈ (addDecoys pool used decoys).2,
          toLowerStr d ∈ (addDecoys pool used decoys).1) ∧
        ((addDecoys pool used decoys).2.map toLowerStr).Nodup ∧
        cc ∉ (addDecoys pool used decoys).2.map toLowerStr := by
  intro pool
  induction pool with
  | nil =>
    intro used decoys h1 h2 h3 h4 h5 h6 h7
    exact ⟨h1, h2, h3, h4, h5, h6, h7⟩
  | cons e rest ih =>
    intro used decoys h1 h2 h3 h4 h5 h6 h7
    by_cases hlen : decoys.length ≥ 3
    · simp only [addDecoys, if_pos hlen]
      exact ⟨h1, h2, h3, h4, h5, h6, h7⟩
    · simp only [addDecoys, if_neg hlen]
      by_cases hu : used.contains (toLowerStr (cleanTitle e.title)) = true
      · rw [if_pos hu]
        exact ih used decoys h1 h2 h3 h4 h5 h6 h7
      · rw [if_neg hu]
        have hnm : toLowerStr (cleanTitle e.title) ∉ used := by
          intro hmem
          exact hu ((containsStr_iff _ _).mpr hmem)
        apply ih
        · simp; omega
        · simp; omega
        · exact List.nodup_cons.mpr ⟨hnm, h3⟩
        · exact List.mem_cons_of_mem _ h4
        · intro d hd
          rcases List.mem_append.mp hd with hd1 | hd2
          · exact List.mem_cons_of_mem _ (h5 d hd1)
          · have : d = cleanTitle e.title := by simpa using hd2
            subst this
            exact List.mem_cons_self _ _
        · rw [List.map_append]
          rw [List.nodup_append]
          refine ⟨h6, by simp, ?_⟩
          intro x hx
          simp only [List.map_cons, List.map_nil, List.mem_singleton]
          intro hx2
          subst hx2
          rcases List.mem_map.mp hx with ⟨d, hd, hdx⟩
          exact hnm (hdx ▸ h5 d hd)
        · rw [List.map_append]
          intro hmem
          rcases List.mem_append.mp hmem with hm1 | hm2
          · exact h7 hm1
          · have : cc = toLowerStr (cleanTitle e.title) := by simpa using hm2
            exact hnm (this ▸ h4)

theorem addFallbacks_inv (cc : List Char) :
    ∀ (fbs : List (List Char)) (used decoys : List (List Char)),
      used.Nodup →
      cc ∈ used →
      (∀ d ∈ decoys, toLowerStr d ∈ used) →
      (decoys.map toLowerStr).Nodup →
      cc ∉ decoys.map toLowerStr →
      ((addFallbacks fbs used decoys).map toLowerStr).Nodup ∧
        cc ∉ (addFallbacks fbs used decoys).map toLowerStr := by
  intro fbs
  induction fbs with
  | nil =>
    intro used decoys _ _ _ h6 h7
    exact ⟨h6, h7⟩
  | cons fb rest ih =>
    intro used decoys h3 h4 h5 h6 h7
    by_cases hlen : decoys.length ≥ 3
    · simp only [addFallbacks, if_pos hlen]
      exact ⟨h6, h7⟩
    · simp only [addFallbacks, if_neg hlen]
      by_cases hu : used.contains (toLowerStr fb) = true
      · rw [if_pos hu]
        exact ih used decoys h3 h4 h5 h6 h7
      · rw [if_neg hu]
        have hnm : toLowerStr fb ∉ used := by
          intro hmem
          exact hu ((containsStr_iff _ _).mpr hmem)
        apply ih
        · exact List.nodup_cons.mpr ⟨hnm, h3⟩
        · exact List.mem_cons_of_mem _ h4
        · intro d hd
          rcases List.mem_append.mp hd with hd1 | hd2
          · exact List.mem_cons_of_mem _ (h5 d hd1)
          · have : d = fb := by simpa using hd2
            subst this
            exact List.mem_cons_self _ _
        · rw [List.map_append]
          rw [List.nodup_append]
          refine ⟨h6, by simp, ?_⟩
          intro x hx
          simp only [List.map_cons, List.map_nil, List.mem_singleton]
          intro hx2
          subst hx2
          rcases List.mem_map.mp hx with ⟨d, hd, hdx⟩
          exact hnm (hdx ▸ h5 d hd)
        · rw [List.map_append]
          intro hmem
          rcases List.mem_append.mp hmem with hm1 | hm2
          · exact h7 hm1
          · have : cc = toLowerStr fb := by simpa using hm2
            exact hnm (this ▸ h4)

theorem addFallbacks_ge :
    ∀ (fbs used decoys : List (List Char)),
      (fbs.map toLowerStr).Nodup →
      min 3 (decoys.length + fbs.length -
        (fbs.filter (fun f => used.contains (toLowerStr f))).length) ≤
        (addFallbacks fbs used decoys).length := by
  intro fbs
  induction fbs with
  | nil =>
    intro used decoys _
    simp only [addFallbacks, List.filter_nil, List.length_nil]
    omega
  | cons fb rest ih =>
    intro used decoys hnd
    have hnd' : (rest.map toLowerStr).Nodup := by
      simp only [List.map_cons] at hnd
      exact (List.nodup_cons.mp hnd).2
    have hfb : toLowerStr fb ∉ rest.map toLowerStr := by
      simp only [List.map_cons] at hnd
      exact (List.nodup_cons.mp hnd).1
    have hflt : (rest.filter (fun f => used.contains (toLowerStr f))).length ≤
        rest.length := List.length_filter_le _ _
    by_cases hlen : decoys.length ≥ 3
    · simp only [addFallbacks, if_pos hlen]
      omega
    · by_cases hu : used.contains (toLowerStr fb) = true
      · simp only [addFallbacks, if_neg hlen, if_pos hu]
        have hih := ih used decoys hnd'
        have hcons : ((fb :: rest).filter
            (fun f => used.contains (toLowerStr f))).length =
            (rest.filter (fun f => used.contains (toLowerStr f))).length + 1 := by
          rw [List.filter_cons]
          rw [if_pos hu]
          simp
        rw [hcons]
        simp only [List.length_cons]
        omega
      · simp only [addFallbacks, if_neg hlen, if_neg hu]
        have hsame : rest.filter
            (fun f => (toLowerStr fb :: used).contains (toLowerStr f)) =
            rest.filter (fun f => used.contains (toLowerStr f)) := by
          apply List.filter_congr
          intro f hf
          have hne : toLowerStr f ≠ toLowerStr fb := by
            intro he
            exact hfb (he ▸ List.mem_map_of_mem toLowerStr hf)
          show List.elem (toLowerStr f) (toLowerStr fb :: used) =
            List.elem (toLowerStr f) used
          rw [List.elem_cons]
          split
          · rename_i heq; exact absurd (eq_of_beq heq) hne
          · rfl
        have hih := ih (toLowerStr fb :: used) (decoys ++ [fb]) hnd'
        rw [hsame] at hih
        have hcons : ((fb :: rest).filter
            (fun f => used.contains (toLowerStr f))).length =
            (rest.filter (fun f => used.contains (toLowerStr f))).length := by
          rw [List.filter_cons]
          rw [if_neg (by simpa using hu)]
        rw [hcons]
        simp only [List.length_append, List.length_cons, List.length_nil] at hih ⊢
        omega

theorem blocked_le (fbs used : List (List Char))
    (hnd : (fbs.map toLowerStr).Nodup) :
    (fbs.filter (fun f => used.contains (toLowerStr f))).length ≤
      used.length := by
  have h1 : (((fbs.filter (fun f => used.contains (toLowerStr f))).map
      toLowerStr)).Nodup :=
    List.Nodup.sublist (List.Sublist.map _ (List.filter_sublist _)) hnd
  have h2 : ((fbs.filter (fun f => used.contains (toLowerStr f))).map
      toLowerStr) ⊆ used := by
    intro x hx
    rcases List.mem_map.mp hx with ⟨f, hf, rfl⟩
    exact (containsStr_iff _ _).mp ((List.mem_filter.mp hf).2)
  have h3 := (List.subperm_of_subset h1 h2).length_le
  rw [List.length_map] at h3
  exact h3

theorem decoys_phase_spec (cc : List Char) (sh : List WikiEvent) :
    ((addFallbacks GENERIC_FALLBACKS (addDecoys sh [cc] []).1
        (addDecoys sh [cc] []).2).take 3).length = 3 ∧
    (((addFallbacks GENERIC_FALLBACKS (addDecoys sh [cc] []).1
        (addDecoys sh [cc] []).2).take 3).map toLowerStr).Nodup ∧
    cc ∉ ((addFallbacks GENERIC_FALLBACKS (addDecoys sh [cc] []).1
        (addDecoys sh [cc] []).2).take 3).map toLowerStr := by
  obtain ⟨i1, i2, i3, i4, i5, i6, i7⟩ :=
    addDecoys_inv cc sh [cc] [] (by simp) (by simp) (by simp) (by simp)
      (by simp) (by simp) (by simp)
  have hfnd : (GENERIC_FALLBACKS.map toLowerStr).Nodup := by decide
  have hge := addFallbacks_ge GENERIC_FALLBACKS (addDecoys sh [cc] []).1
    (addDecoys sh [cc] []).2 hfnd
  have hbl := blocked_le GENERIC_FALLBACKS (addDecoys sh [cc] []).1 hfnd
  have hflen : GENERIC_FALLBACKS.length = 8 := rfl
  have h3 : 3 ≤ (addFallbacks GENERIC_FALLBACKS (addDecoys sh [cc] []).1
      (addDecoys sh [cc] []).2).length := by
    rw [hflen] at hge
    omega
  obtain ⟨f6, f7⟩ :=
    addFallbacks_inv cc GENERIC_FALLBACKS (addDecoys sh [cc] []).1
      (addDecoys sh [cc] []).2 i3 i4 i5 i6 i7
  refine ⟨?_, ?_, ?_⟩
  · rw [List.length_take]
    omega
  · rw [List.map_take]
    exact List.Nodup.sublist (List.take_sublist _ _) f6
  · intro hm
    rw [List.map_take] at hm
    exact f7 (List.mem_of_mem_take hm)

theorem generateDecoys_spec (e : WikiEvent) (pool : List WikiEvent)
    (js1 js2 : List Nat) :
    (generateDecoys e pool js1 js2).length = 3 ∧
    ((generateDecoys e pool js1 js2).map toLowerStr).Nodup ∧
    toLowerStr (cleanTitle e.title) ∉
      (generateDecoys e pool js1 js2).map toLowerStr := by
  exact decoys_phase_spec (toLowerStr (cleanTitle e.title))
    (shuffleWith js1 (pool.filter (fun x =>
      x.id != e.id && x.category == e.category &&
        toLowerStr (cleanTitle x.title) != toLowerStr (cleanTitle e.title))) ++
     shuffleWith js2 (pool.filter (fun x =>
      x.id != e.id && !(x.category == e.category) &&
        toLowerStr (cleanTitle x.title) != toLowerStr (cleanTitle e.title))))

/-- C6: for every event, pool and difficulty, and for every outcome of the
internal random shuffles, the options of `prepareQuizQuestion` contain the
cleaned correct title exactly once, have length exactly 4 and contain no
duplicate entries. -/
theorem prepareQuizQuestion_options (event : WikiEvent)
    (pool : List WikiEvent) (difficulty : Difficulty)
    (js1 js2 js3 : List Nat) :
    (prepareQuizQuestion event pool difficulty js1 js2 js3).options.count
        (cleanTitle event.title) = 1 ∧
    (prepareQuizQuestion event pool difficulty js1 js2 js3).options.length = 4 ∧
    (prepareQuizQuestion event pool difficulty js1 js2 js3).options.Nodup := by
  obtain ⟨hlen, hnd, hnm⟩ := generateDecoys_spec event pool js1 js2
  have hopts :
      (prepareQuizQuestion event pool difficulty js1 js2 js3).options =
      shuffleWith js3
        (cleanTitle event.title :: generateDecoys event pool js1 js2) := rfl
  rw [hopts]
  have hctd : cleanTitle event.title ∉ generateDecoys event pool js1 js2 := by
    intro hm
    exact hnm (List.mem_map_of_mem toLowerStr hm)
  have hperm := perm_shuffleWith js3
    (cleanTitle event.title :: generateDecoys event pool js1 js2)
  refine ⟨?_, ?_, ?_⟩
  · rw [perm_count hperm]
    rw [List.count_cons]
    rw [List.count_eq_zero.mpr hctd]
    simp
  · rw [hperm.length_eq]
    simp [hlen]
  · exact (hperm.nodup_iff).mpr
      (List.nodup_cons.mpr ⟨hctd, List.Nodup.of_map toLowerStr hnd⟩)

-- ─────────────────────────────────────────────────────────────────
--  MASKING IDEMPOTENCE (claim C8): supporting lemmas
-- ─────────────────────────────────────────────────────────────────

theorem lowerChar_eq_blk (c : Char) (h : lowerChar c = blk) : c = blk := by
  unfold lowerChar at h
  split at h
  all_goals first
    | exact h
    | exact absurd h (by decide)

theorem ciEq_blk_right (c : Char) (h : ciEq c blk = true) : c = blk := by
  unfold ciEq at h
  have h2 : lowerChar c = lowerChar blk := eq_of_beq h
  have h3 : lowerChar blk = blk := rfl
  exact lowerChar_eq_blk c (h2.trans h3)

theorem isWordChar_lowerChar (c : Char) :
    isWordChar (lowerChar c) = isWordChar c := by
  unfold lowerChar
  split <;> rfl

theorem ciEq_word (a b : Char) (h : ciEq a b = true) :
    isWordChar a = isWordChar b := by
  have h2 : lowerChar a = lowerChar b := eq_of_beq h
  rw [← isWordChar_lowerChar a, ← isWordChar_lowerChar b, h2]

theorem ciLeads_le_length : ∀ (u v : List Char), ciLeads u v = true →
    u.length ≤ v.length := by
  intro u
  induction u with
  | nil => intro v _; simp
  | cons p ps ih =>
    intro v h
    cases v with
    | nil => exact absurd h (by simp [ciLeads])
    | cons c cs =>
      simp only [ciLeads, Bool.and_eq_true] at h
      simpa using ih cs h.2

theorem ciLeads_take_ne_blk : ∀ (u v : List Char), ciLeads u v = true →
    blk ∉ u → ∀ c ∈ v.take u.length, c ≠ blk := by
  intro u
  induction u with
  | nil => intro v _ _ c hc; simp at hc
  | cons p ps ih =>
    intro v h hnb c hc
    cases v with
    | nil => exact absurd h (by simp [ciLeads])
    | cons x xs =>
      simp only [ciLeads, Bool.and_eq_true] at h
      simp only [List.length_cons, List.take_succ_cons, List.mem_cons] at hc
      rcases hc with rfl | hc
      · intro he
        subst he
        exact hnb (by simp [ciEq_blk_right p h.1])
      · exact ih xs h.2 (fun hm => hnb (List.mem_cons_of_mem _ hm)) c hc

theorem ciLeads_congr_take : ∀ (u v v' : List Char),
    v.take u.length = v'.take u.length → ciLeads u v = ciLeads u v' := by
  intro u
  induction u with
  | nil => intro v v' _; rfl
  | cons p ps ih =>
    intro v v' h
    cases v with
    | nil =>
      cases v' with
      | nil => rfl
      | cons y ys => simp [List.take_succ_cons] at h
    | cons x xs =>
      cases v' with
      | nil => simp [List.take_succ_cons] at h
      | cons y ys =>
        simp only [List.length_cons, List.take_succ_cons, List.cons.injEq] at h
        obtain ⟨rfl, h2⟩ := h
        simp only [ciLeads]
        rw [ih xs ys h2]

theorem getD_irrel : ∀ (s : List Char) (k : Nat) (d d' : Char),
    k < s.length → s.getD k d = s.getD k d' := by
  intro s
  induction s with
  | nil => intro k d d' h; simp at h
  | cons c t ih =>
    intro k d d' h
    cases k with
    | zero => rfl
    | succ k2 =>
      simp only [List.getD_cons_succ]
      exact ih k2 d d' (by simpa using h)

theorem take_getD_eq : ∀ (m k : Nat) (v v' : List Char) (d : Char),
    v.take m = v'.take m → k < m → v.getD k d = v'.getD k d := by
  intro m
  induction m with
  | zero => intro k v v' d _ hk; omega
  | succ m2 ih =>
    intro k v v' d h hk
    cases v with
    | nil =>
      cases v' with
      | nil => rfl
      | cons y ys => simp [List.take_succ_cons] at h
    | cons x xs =>
      cases v' with
      | nil => simp [List.take_succ_cons] at h
      | cons y ys =>
        simp only [List.take_succ_cons, List.cons.injEq] at h
        obtain ⟨rfl, h2⟩ := h
        cases k with
        | zero => rfl
        | succ k2 =>
          simp only [List.getD_cons_succ]
          exact ih k2 xs ys d h2 (by omega)

theorem take_head_eq (m : Nat) (v v' : List Char) (hm : 1 ≤ m)
    (h : v.take m = v'.take m) : v.head? = v'.head? := by
  cases v with
  | nil =>
    cases v' with
    | nil => rfl
    | cons y ys =>
      cases m with
      | zero => omega
      | succ m2 => simp [List.take_succ_cons] at h
  | cons x xs =>
    cases v' with
    | nil =>
      cases m with
      | zero => omega
      | succ m2 => simp [List.take_succ_cons] at h
    | cons y ys =>
      cases m with
      | zero => omega
      | succ m2 =>
        simp only [List.take_succ_cons, List.cons.injEq] at h
        simp [h.1]

theorem occCI_drop (pat : List Char) : ∀ (k : Nat) (s : List Char),
    containsOccCI pat (s.drop k) = true → containsOccCI pat s = true := by
  intro k
  induction k with
  | zero => intro s h; simpa using h
  | succ k2 ih =>
    intro s h
    cases s with
    | nil => simpa using h
    | cons c t =>
      simp only [List.drop_succ_cons] at h
      simp only [containsOccCI, Bool.or_eq_true]
      exact Or.inr (ih t h)

theorem bOcc_drop_ctx (w : List Char) : ∀ (k : Nat) (s : List Char)
    (γ : Option Char) (d : Char), 1 ≤ k → k ≤ s.length →
    containsBOcc w (some (s.getD (k - 1) d)) (s.drop k) = true →
    containsBOcc w γ s = true := by
  intro k
  induction k with
  | zero => intro s γ d h1 _ _; omega
  | succ k2 ih =>
    intro s γ d _ hk h
    cases s with
    | nil => simp at hk
    | cons c t =>
      cases k2 with
      | zero =>
        simp only [List.getD_cons_zero, List.drop_succ_cons, List.drop_zero] at h
        simp only [containsBOcc, Bool.or_eq_true]
        exact Or.inr h
      | succ k3 =>
        simp only [List.drop_succ_cons] at h
        have h2 : t.getD (k3 + 1 - 1) d = (c :: t).getD (k3 + 1 + 1 - 1) d := rfl
        simp only [containsBOcc, Bool.or_eq_true]
        refine Or.inr (ih t (some c) d (by omega) (by simpa using hk) ?_)
        rw [h2]
        exact h

theorem bOccHead_blk_false (w : List Char) (hwb : blk ∉ w) (γ : Option Char)
    (l : List Char) : bOccHead w γ (blk :: l) = false := by
  cases hw : w.isEmpty
  · cases w with
    | nil => simp at hw
    | cons p ps =>
      simp only [bOccHead, ciLeads]
      cases hpe : ciEq p blk
      · simp [hpe]
      · exact absurd (ciEq_blk_right p hpe)
          (fun he => hwb (by simp [he]))
  · cases w with
    | nil => simp [bOccHead]
    | cons p ps => simp at hw

theorem bOcc_append_blks (w : List Char) (hwb : blk ∉ w) :
    ∀ (rp : List Char) (γ : Option Char) (T : List Char),
      (∀ c ∈ rp, c = blk) →
      containsBOcc w γ (rp ++ T) =
        containsBOcc w (if rp.isEmpty then γ else some blk) T := by
  intro rp
  induction rp with
  | nil => intro γ T _; rfl
  | cons b rest ih =>
    intro γ T hbl
    have hb : b = blk := hbl b (by simp)
    subst hb
    simp only [List.cons_append, containsBOcc, List.append_eq]
    rw [bOccHead_blk_false w hwb]
    rw [ih (some blk) T (fun c hc => hbl c (by simp [hc]))]
    simp only [Bool.false_or, List.isEmpty_cons]
    split <;> rfl

theorem occCI_append_blks (pat : List Char) (hpb : blk ∉ pat)
    (hpn : pat ≠ []) : ∀ (rp : List Char) (T : List Char),
      (∀ c ∈ rp, c = blk) →
      containsOccCI pat (rp ++ T) = containsOccCI pat T := by
  intro rp
  induction rp with
  | nil => intro T _; rfl
  | cons b rest ih =>
    intro T hbl
    have hb : b = blk := hbl b (by simp)
    subst hb
    simp only [List.cons_append, containsOccCI, List.append_eq]
    have hcl : ciLeads pat (blk :: (rest ++ T)) = false := by
      cases pat with
      | nil => exact absurd rfl hpn
      | cons p ps =>
        simp only [ciLeads]
        cases hpe : ciEq p blk
        · simp [hpe]
        · exact absurd (ciEq_blk_right p hpe) (fun he => hpb (by simp [he]))
    rw [hcl]
    simp only [Bool.false_or]
    exact ih T (fun c hc => hbl c (by simp [hc]))

theorem containsBOcc_view (w : List Char) (γ : Option Char)
    (l : List Char) : containsBOcc w γ l =
    (bOccHead w γ l ||
      (match l with | [] => false | c :: t => containsBOcc w (some c) t)) := by
  cases l with
  | nil => simp [containsBOcc, bOccHead]
  | cons c t => rfl

theorem ciLeads_replaceAllCIF (pat rep : List Char)
    (hrb : ∀ c ∈ rep, c = blk) (hrn : rep ≠ []) :
    ∀ (f : Nat) (s u : List Char), s.length ≤ f → blk ∉ u →
      ciLeads u (replaceAllCIF pat rep f s) = true → ciLeads u s = true := by
  intro f
  induction f with
  | zero =>
    intro s u hs _ h
    have hs0 : s = [] := List.length_eq_zero.mp (by omega)
    subst hs0
    simpa using h
  | succ f2 ih =>
    intro s u hs hub h
    cases s with
    | nil => simpa using h
    | cons c t =>
      simp only [replaceAllCIF] at h
      split at h
      · cases u with
        | nil => rfl
        | cons x xs =>
          cases rep with
          | nil => exact absurd rfl hrn
          | cons r0 rrest =>
            have hr0 : r0 = blk := hrb r0 (by simp)
            subst hr0
            simp only [List.cons_append, ciLeads, Bool.and_eq_true] at h
            exact absurd (ciEq_blk_right x h.1) (fun he => hub (by simp [he]))
      · cases u with
        | nil => rfl
        | cons x xs =>
          simp only [ciLeads, Bool.and_eq_true] at h ⊢
          refine ⟨h.1, ?_⟩
          exact ih t xs (by simpa using hs)
            (fun hm => hub (by simp [hm])) h.2

theorem no_occ_replaceAllCIF (pat rep : List Char) (hpn : pat ≠ [])
    (hpb : blk ∉ pat) (hrb : ∀ c ∈ rep, c = blk) (hrn : rep ≠ []) :
    ∀ (f : Nat) (s : List Char), s.length ≤ f →
      containsOccCI pat (replaceAllCIF pat rep f s) = false := by
  have hnil : containsOccCI pat [] = false := by
    cases pat with
    | nil => exact absurd rfl hpn
    | cons p ps => rfl
  intro f
  induction f with
  | zero =>
    intro s hs
    have hs0 : s = [] := List.length_eq_zero.mp (by omega)
    subst hs0
    simpa using hnil
  | succ f2 ih =>
    intro s hs
    cases s with
    | nil => simpa using hnil
    | cons c t =>
      simp only [replaceAllCIF]
      split
      · rw [occCI_append_blks pat hpb hpn rep _ hrb]
        apply ih
        have hp1 : 1 ≤ pat.length := by
          cases pat with
          | nil => exact absurd rfl hpn
          | cons _ _ => simp
        simp only [List.length_drop, List.length_cons]
        simp only [List.length_cons] at hs
        omega
      · rename_i hcond
        have hR : containsOccCI pat (replaceAllCIF pat rep f2 t) = false :=
          ih t (by simpa using hs)
        have hcl : ciLeads pat (c :: replaceAllCIF pat rep f2 t) = false := by
          cases hcl2 : ciLeads pat (c :: replaceAllCIF pat rep f2 t)
          · rfl
          · exfalso
            cases pat with
            | nil => exact hpn rfl
            | cons p ps =>
              simp only [ciLeads, Bool.and_eq_true] at hcl2
              have hps := ciLeads_replaceAllCIF (p :: ps) rep hrb hrn f2 t ps
                (by simpa using hs) (fun hm => hpb (by simp [hm])) hcl2.2
              have hlead : ciLeads (p :: ps) (c :: t) = true := by
                simp only [ciLeads, Bool.and_eq_true]
                exact ⟨hcl2.1, hps⟩
              exact hcond (by simp [hlead])
        simp only [containsOccCI, hcl, hR, Bool.or_self]

theorem replaceAllCIF_id (pat rep : List Char) :
    ∀ (f : Nat) (s : List Char), s.length ≤ f →
      containsOccCI pat s = false → replaceAllCIF pat rep f s = s := by
  intro f
  induction f with
  | zero =>
    intro s hs _
    have hs0 : s = [] := List.length_eq_zero.mp (by omega)
    subst hs0
    rfl
  | succ f2 ih =>
    intro s hs h
    cases s with
    | nil => rfl
    | cons c t =>
      simp only [containsOccCI, Bool.or_eq_false_iff] at h
      obtain ⟨h1, h2⟩ := h
      simp only [replaceAllCIF]
      rw [if_neg (by simp [h1])]
      rw [ih t (by simpa using hs) h2]

theorem replaceWordCIF_nil (w rep : List Char) (f : Nat) (γ : Option Char) :
    replaceWordCIF w rep f γ [] = [] := by
  cases f <;> rfl

theorem head_replaceWordCIF (w' rep : List Char) (hrb : ∀ c ∈ rep, c = blk)
    (hrn : rep ≠ []) (f : Nat) (γ : Option Char) (s : List Char)
    (hs : s.length ≤ f) :
    (replaceWordCIF w' rep f γ s).head? = s.head? ∨
    ((replaceWordCIF w' rep f γ s).head? = some blk ∧
      ∃ cu tu, s = cu :: tu ∧ boundaryOC γ (some cu) = true) := by
  cases s with
  | nil => left; rw [replaceWordCIF_nil]
  | cons cu tu =>
    cases f with
    | zero => simp only [List.length_cons] at hs; omega
    | succ f2 =>
      simp only [replaceWordCIF]
      split
      · rename_i hb
        right
        constructor
        · cases rep with
          | nil => exact absurd rfl hrn
          | cons r0 rr =>
            have h0 : r0 = blk := hrb r0 (by simp)
            simp [h0]
        · refine ⟨cu, tu, rfl, ?_⟩
          simp only [bOccHead, Bool.and_eq_true] at hb
          exact hb.1.2
      · left; rfl

theorem unfold_replaceWordCIF (w' rep : List Char) (hrb : ∀ c ∈ rep, c = blk)
    (hrn : rep ≠ []) :
    ∀ (m f : Nat) (γ : Option Char) (s : List Char), s.length ≤ f →
      (∀ c ∈ (replaceWordCIF w' rep f γ s).take m, c ≠ blk) →
      m ≤ (replaceWordCIF w' rep f γ s).length →
      (replaceWordCIF w' rep f γ s).take m = s.take m ∧ m ≤ s.length ∧
      ∃ f2, (s.drop m).length ≤ f2 ∧
        (replaceWordCIF w' rep f γ s).drop m =
          replaceWordCIF w' rep f2
            (if m = 0 then γ else some (s.getD (m - 1) 'a')) (s.drop m) := by
  intro m
  induction m with
  | zero =>
    intro f γ s hs _ _
    exact ⟨by simp, by simp, ⟨f, by simpa using hs, by simp⟩⟩
  | succ m2 ih =>
    intro f γ s hs hfree hlen
    cases s with
    | nil =>
      rw [replaceWordCIF_nil] at hlen
      simp at hlen
    | cons c t =>
      cases f with
      | zero => simp only [List.length_cons] at hs; omega
      | succ f2 =>
        simp only [replaceWordCIF] at hfree hlen ⊢
        by_cases hb : bOccHead w' γ (c :: t) = true
        · rw [if_pos hb] at hfree hlen ⊢
          exfalso
          cases rep with
          | nil => exact hrn rfl
          | cons r0 rr =>
            have h0 : r0 = blk := hrb r0 (by simp)
            exact hfree r0 (by simp [List.cons_append, List.take_succ_cons]) h0
        · rw [if_neg hb] at hfree hlen ⊢
          have hfree2 : ∀ x ∈ (replaceWordCIF w' rep f2 (some c) t).take m2,
              x ≠ blk := by
            intro x hx
            exact hfree x (by simp [List.take_succ_cons, hx])
          have hlen2 : m2 ≤ (replaceWordCIF w' rep f2 (some c) t).length := by
            simp only [List.length_cons] at hlen
            omega
          obtain ⟨htk, hm, f3, hf3, hdr⟩ :=
            ih f2 (some c) t (by simpa using hs) hfree2 hlen2
          refine ⟨?_, ?_, ⟨f3, ?_, ?_⟩⟩
          · simp only [List.take_succ_cons, htk]
          · simp only [List.length_cons]
            omega
          · simpa using hf3
          · simp only [List.drop_succ_cons, hdr]
            cases m2 with
            | zero => simp
            | succ m3 => simp

theorem ciLeads_replaceWordCIF (w' rep : List Char)
    (hrb : ∀ c ∈ rep, c = blk) (hrn : rep ≠ []) (f : Nat) (γ : Option Char)
    (s u : List Char) (hs : s.length ≤ f) (hub : blk ∉ u)
    (h : ciLeads u (replaceWordCIF w' rep f γ s) = true) :
    ciLeads u s = true := by
  have h7 := ciLeads_take_ne_blk u _ h hub
  have h8 := ciLeads_le_length u _ h
  obtain ⟨htk, _, _⟩ :=
    unfold_replaceWordCIF w' rep hrb hrn u.length f γ s hs h7 h8
  rw [ciLeads_congr_take u _ s htk] at h
  exact h

theorem occCI_replaceWordCIF (pat w' rep : List Char) (hpb : blk ∉ pat)
    (hpn : pat ≠ []) (hrb : ∀ c ∈ rep, c = blk) (hrn : rep ≠ []) :
    ∀ (f : Nat) (γ : Option Char) (s : List Char), s.length ≤ f →
      containsOccCI pat (replaceWordCIF w' rep f γ s) = true →
      containsOccCI pat s = true := by
  intro f
  induction f with
  | zero =>
    intro γ s hs h
    have hs0 : s = [] := List.length_eq_zero.mp (by omega)
    subst hs0
    rw [replaceWordCIF_nil] at h
    exact h
  | succ f2 ih =>
    intro γ s hs h
    cases s with
    | nil => rw [replaceWordCIF_nil] at h; exact h
    | cons c t =>
      simp only [replaceWordCIF] at h
      by_cases hb : bOccHead w' γ (c :: t) = true
      · rw [if_pos hb] at h
        rw [occCI_append_blks pat hpb hpn rep _ hrb] at h
        have hw1 : 1 ≤ w'.length := by
          cases w' with
          | nil => simp [bOccHead] at hb
          | cons _ _ => simp
        have hdl : ((c :: t).drop w'.length).length ≤ f2 := by
          simp only [List.length_drop, List.length_cons]
          simp only [List.length_cons] at hs
          omega
        exact occCI_drop pat w'.length (c :: t) (ih _ _ hdl h)
      · rw [if_neg hb] at h
        simp only [containsOccCI, Bool.or_eq_true] at h ⊢
        rcases h with h1 | h2
        · left
          cases pat with
          | nil => rfl
          | cons p ps =>
            simp only [ciLeads, Bool.and_eq_true] at h1 ⊢
            exact ⟨h1.1, ciLeads_replaceWordCIF w' rep hrb hrn f2 (some c) t
              ps (by simpa using hs) (fun hm => hpb (by simp [hm])) h1.2⟩
        · right
          exact ih _ _ (by simpa using hs) h2

theorem bOccHead_replaceWordCIF (w w' rep : List Char) (hw : w ≠ [])
    (hwb : blk ∉ w) (hrb : ∀ c ∈ rep, c = blk) (hrn : rep ≠ [])
    (f : Nat) (γp : Option Char) (s : List Char) (γo : Option Char)
    (hs : s.length ≤ f)
    (hB : bOccHead w γo (replaceWordCIF w' rep f γp s) = true) :
    (∀ γn : Option Char, boundaryOC γn s.head? = true →
      bOccHead w γn s = true) ∧
    boundaryOC γo s.head? = true := by
  cases s with
  | nil => rw [replaceWordCIF_nil] at hB; simp [bOccHead] at hB
  | cons c t =>
    cases hTe : replaceWordCIF w' rep f γp (c :: t) with
    | nil => rw [hTe] at hB; simp [bOccHead] at hB
    | cons T0 T1 =>
      rw [hTe] at hB
      simp only [bOccHead, Bool.and_eq_true] at hB
      obtain ⟨⟨⟨hBne, hBci⟩, hBb3⟩, hBb4⟩ := hB
      have hw1 : 1 ≤ w.length := by
        cases w with
        | nil => exact absurd rfl hw
        | cons _ _ => simp
      have hfree0 := ciLeads_take_ne_blk w (T0 :: T1) hBci hwb
      have hlenw0 := ciLeads_le_length w (T0 :: T1) hBci
      obtain ⟨htk, hwle, f2, hf2, hdr⟩ :=
        unfold_replaceWordCIF w' rep hrb hrn w.length f γp (c :: t) hs
          (by rw [hTe]; exact hfree0) (by rw [hTe]; exact hlenw0)
      rw [hTe] at htk hdr
      have hhead : (T0 :: T1).head? = (c :: t).head? :=
        take_head_eq w.length _ _ hw1 htk
      have hT0 : c = T0 := by simpa using hhead.symm
      subst hT0
      have hc2 : boundaryOC γo (c :: t).head? = true := by simpa using hBb3
      have hmleq : (c :: T1).getD (w.length - 1) c =
          (c :: t).getD (w.length - 1) c :=
        take_getD_eq w.length (w.length - 1) _ _ c htk (by omega)
      rw [hmleq, hdr] at hBb4
      have hwlt : w.length - 1 < (c :: t).length := by
        simp only [List.length_cons] at hwle ⊢
        omega
      rw [if_neg (by omega : ¬w.length = 0)] at hBb4
      have hb4' : boundaryOC (some ((c :: t).getD (w.length - 1) c))
          (((c :: t).drop w.length).head?) = true := by
        rcases head_replaceWordCIF w' rep hrb hrn f2
            (some ((c :: t).getD (w.length - 1) 'a'))
            ((c :: t).drop w.length) hf2 with hL | ⟨hblk, cu, tu, hcu, hbnd⟩
        · rw [hL] at hBb4
          exact hBb4
        · rw [hcu]
          have hswap : (c :: t).getD (w.length - 1) 'a' =
              (c :: t).getD (w.length - 1) c := getD_irrel _ _ _ _ hwlt
          rw [hswap] at hbnd
          simpa using hbnd
      have hciS : ciLeads w (c :: t) = true := by
        rw [ciLeads_congr_take w _ _ htk] at hBci
        exact hBci
      refine ⟨?_, hc2⟩
      intro γn hγn
      simp only [bOccHead, Bool.and_eq_true]
      refine ⟨⟨⟨?_, hciS⟩, by simpa using hγn⟩, hb4'⟩
      cases w with
      | nil => exact absurd rfl hw
      | cons _ _ => simp

theorem no_self_bOcc_replaceWordCIF (w rep : List Char) (hw : w ≠ [])
    (hwb : blk ∉ w) (hrb : ∀ c ∈ rep, c = blk) (hrn : rep ≠ []) :
    ∀ (f : Nat) (γ : Option Char) (s : List Char), s.length ≤ f →
      containsBOcc w γ (replaceWordCIF w rep f γ s) = false := by
  intro f
  induction f with
  | zero =>
    intro γ s hs
    have hs0 : s = [] := List.length_eq_zero.mp (by omega)
    subst hs0
    rw [replaceWordCIF_nil]
    rfl
  | succ f2 ih =>
    intro γ s hs
    cases s with
    | nil => rw [replaceWordCIF_nil]; rfl
    | cons c t =>
      by_cases hb : bOccHead w γ (c :: t) = true
      · have hout : replaceWordCIF w rep (f2 + 1) γ (c :: t) =
            rep ++ replaceWordCIF w rep f2
              (some ((c :: t).getD (w.length - 1) c))
              ((c :: t).drop w.length) := by
          simp only [replaceWordCIF]
          rw [if_pos hb]
        rw [hout, bOcc_append_blks w hwb rep γ _ hrb]
        have hre : rep.isEmpty = false := by
          cases rep with
          | nil => exact absurd rfl hrn
          | cons _ _ => rfl
        rw [if_neg (show ¬rep.isEmpty = true by simp [hre])]
        simp only [bOccHead, Bool.and_eq_true] at hb
        obtain ⟨⟨⟨hne, hci⟩, hb3⟩, hb4⟩ := hb
        have hw1 : 1 ≤ w.length := by
          cases w with
          | nil => exact absurd rfl hw
          | cons _ _ => simp
        have hs₂ : ((c :: t).drop w.length).length ≤ f2 := by
          simp only [List.length_drop, List.length_cons]
          simp only [List.length_cons] at hs
          omega
        cases hT : replaceWordCIF w rep f2
            (some ((c :: t).getD (w.length - 1) c))
            ((c :: t).drop w.length) with
        | nil => rfl
        | cons A B =>
          simp only [containsBOcc]
          have hIH := ih (some ((c :: t).getD (w.length - 1) c))
            ((c :: t).drop w.length) hs₂
          rw [hT] at hIH
          simp only [containsBOcc, Bool.or_eq_false_iff] at hIH
          rw [hIH.2]
          simp only [Bool.or_false]
          cases hH : bOccHead w (some blk) (A :: B)
          · rfl
          · exfalso
            have hHH := bOccHead_replaceWordCIF w w rep hw hwb hrb hrn f2
              (some ((c :: t).getD (w.length - 1) c)) ((c :: t).drop w.length)
              (some blk) hs₂ (by rw [hT]; exact hH)
            have hm2 := hHH.1 (some ((c :: t).getD (w.length - 1) c)) hb4
            cases hs2e : (c :: t).drop w.length with
            | nil => rw [hs2e] at hm2; simp [bOccHead] at hm2
            | cons c₂ t₂ =>
              cases f2 with
              | zero =>
                rw [hs2e] at hs₂
                simp at hs₂
              | succ f3 =>
                rw [hs2e] at hT hm2
                simp only [replaceWordCIF] at hT
                rw [if_pos hm2] at hT
                cases rep with
                | nil => exact absurd rfl hrn
                | cons r0 rrest =>
                  have hr0 : r0 = blk := hrb r0 (by simp)
                  subst hr0
                  simp only [List.cons_append] at hT
                  injection hT with hA hB2
                  rw [← hA] at hH
                  rw [bOccHead_blk_false w hwb] at hH
                  exact Bool.noConfusion hH
      · have hout : replaceWordCIF w rep (f2 + 1) γ (c :: t) =
            c :: replaceWordCIF w rep f2 (some c) t := by
          simp only [replaceWordCIF]
          rw [if_neg hb]
        rw [hout]
        simp only [containsBOcc]
        have hIH := ih (some c) t (by simpa using hs)
        rw [hIH]
        simp only [Bool.or_false]
        cases hH : bOccHead w γ (c :: replaceWordCIF w rep f2 (some c) t)
        · rfl
        · exfalso
          rw [← hout] at hH
          have hHH := bOccHead_replaceWordCIF w w rep hw hwb hrb hrn (f2 + 1)
            γ (c :: t) γ hs hH
          exact hb (hHH.1 γ hHH.2)

theorem bOcc_transfer_replaceWordCIF (w w' rep : List Char) (hw : w ≠ [])
    (hwb : blk ∉ w) (hrb : ∀ c ∈ rep, c = blk) (hrn : rep ≠ []) :
    ∀ (f : Nat) (γ : Option Char) (s : List Char), s.length ≤ f →
      containsBOcc w γ (replaceWordCIF w' rep f γ s) = true →
      containsBOcc w γ s = true := by
  intro f
  induction f with
  | zero =>
    intro γ s hs h
    have hs0 : s = [] := List.length_eq_zero.mp (by omega)
    subst hs0
    rw [replaceWordCIF_nil] at h
    exact h
  | succ f2 ih =>
    intro γ s hs h
    cases s with
    | nil => rw [replaceWordCIF_nil] at h; exact h
    | cons c t =>
      by_cases hb : bOccHead w' γ (c :: t) = true
      · have hout : replaceWordCIF w' rep (f2 + 1) γ (c :: t) =
            rep ++ replaceWordCIF w' rep f2
              (some ((c :: t).getD (w'.length - 1) c))
              ((c :: t).drop w'.length) := by
          simp only [replaceWordCIF]
          rw [if_pos hb]
        rw [hout, bOcc_append_blks w hwb rep γ _ hrb] at h
        have hre : rep.isEmpty = false := by
          cases rep with
          | nil => exact absurd rfl hrn
          | cons _ _ => rfl
        rw [if_neg (show ¬rep.isEmpty = true by simp [hre])] at h
        simp only [bOccHead, Bool.and_eq_true] at hb
        obtain ⟨⟨⟨hne, hci⟩, hb3⟩, hb4⟩ := hb
        have hw'1 : 1 ≤ w'.length := by
          cases w' with
          | nil => simp at hne
          | cons _ _ => simp
        have hwle' : w'.length ≤ (c :: t).length := ciLeads_le_length w' _ hci
        have hs₂ : ((c :: t).drop w'.length).length ≤ f2 := by
          simp only [List.length_drop, List.length_cons]
          simp only [List.length_cons] at hs
          omega
        have hkey : containsBOcc w
            (some ((c :: t).getD (w'.length - 1) c))
            ((c :: t).drop w'.length) = true := by
          cases hT : replaceWordCIF w' rep f2
              (some ((c :: t).getD (w'.length - 1) c))
              ((c :: t).drop w'.length) with
          | nil =>
            rw [hT] at h
            exact absurd h (by simp [containsBOcc])
          | cons A B =>
            rw [hT] at h
            simp only [containsBOcc, Bool.or_eq_true] at h
            rcases h with hHead | hTail
            · have hHH := bOccHead_replaceWordCIF w w' rep hw hwb hrb hrn f2
                (some ((c :: t).getD (w'.length - 1) c))
                ((c :: t).drop w'.length) (some blk) hs₂
                (by rw [hT]; exact hHead)
              have hm2 := hHH.1 (some ((c :: t).getD (w'.length - 1) c)) hb4
              cases hs2e : (c :: t).drop w'.length with
              | nil => rw [hs2e] at hm2; simp [bOccHead] at hm2
              | cons c₂ t₂ =>
                rw [hs2e] at hm2
                simp only [containsBOcc, Bool.or_eq_true]
                exact Or.inl hm2
            · have hT' : containsBOcc w
                  (some ((c :: t).getD (w'.length - 1) c))
                  (replaceWordCIF w' rep f2
                    (some ((c :: t).getD (w'.length - 1) c))
                    ((c :: t).drop w'.length)) = true := by
                rw [hT]
                simp only [containsBOcc, Bool.or_eq_true]
                exact Or.inr hTail
              exact ih _ _ hs₂ hT'
        exact bOcc_drop_ctx w w'.length (c :: t) γ c hw'1 hwle' hkey
      · have hout : replaceWordCIF w' rep (f2 + 1) γ (c :: t) =
            c :: replaceWordCIF w' rep f2 (some c) t := by
          simp only [replaceWordCIF]
          rw [if_neg hb]
        rw [hout] at h
        simp only [containsBOcc, Bool.or_eq_true] at h ⊢
        rcases h with hHead | hTail
        · left
          rw [← hout] at hHead
          have hHH := bOccHead_replaceWordCIF w w' rep hw hwb hrb hrn (f2 + 1)
            γ (c :: t) γ hs hHead
          exact hHH.1 γ hHH.2
        · right
          exact ih (some c) t (by simpa using hs) hTail

theorem replaceWordCIF_id (w rep : List Char) :
    ∀ (f : Nat) (γ : Option Char) (s : List Char), s.length ≤ f →
      containsBOcc w γ s = false → replaceWordCIF w rep f γ s = s := by
  intro f
  induction f with
  | zero =>
    intro γ s hs _
    have hs0 : s = [] := List.length_eq_zero.mp (by omega)
    subst hs0
    rw [replaceWordCIF_nil]
  | succ f2 ih =>
    intro γ s hs h
    cases s with
    | nil => rw [replaceWordCIF_nil]
    | cons c t =>
      simp only [containsBOcc, Bool.or_eq_false_iff] at h
      simp only [replaceWordCIF]
      rw [if_neg (by simp [h.1])]
      rw [ih (some c) t (by simpa using hs) h.2]

theorem maskWord_blk : ∀ c ∈ maskWord, c = blk := by decide

theorem maskWord_ne : maskWord ≠ [] := by decide

theorem maskFull_blk : ∀ c ∈ maskFull, c = blk := by decide

theorem maskFull_ne : maskFull ≠ [] := by decide

theorem extractSignificantWords_facts (title : List Char) :
    ∀ w ∈ extractSignificantWords title, w ≠ [] ∧ blk ∉ w := by
  intro w hw
  simp only [extractSignificantWords, List.mem_filter, List.mem_map] at hw
  obtain ⟨⟨w0, hw0, hmap⟩, hlen⟩ := hw
  constructor
  · intro hnil
    rw [hnil] at hlen
    exact absurd hlen (by decide)
  · intro hblk
    rw [← hmap] at hblk
    exact absurd (List.mem_filter.mp hblk).2 (by decide)

theorem fold_occCI (pat : List Char) (hpb : blk ∉ pat) (hpn : pat ≠ []) :
    ∀ (ws : List (List Char)) (s : List Char),
      containsOccCI pat
        (ws.foldl (fun acc w => replaceWordCI w maskWord acc) s) = true →
      containsOccCI pat s = true := by
  intro ws
  induction ws with
  | nil => intro s h; simpa using h
  | cons w0 rest ih =>
    intro s h
    simp only [List.foldl_cons] at h
    have h2 := ih _ h
    simp only [replaceWordCI] at h2
    exact occCI_replaceWordCIF pat w0 maskWord hpb hpn maskWord_blk
      maskWord_ne s.length none s le_rfl h2

theorem fold_keeps_noBOcc (u : List Char) (hu : u ≠ []) (hub : blk ∉ u) :
    ∀ (ws : List (List Char)) (s : List Char),
      containsBOcc u none s = false →
      containsBOcc u none
        (ws.foldl (fun acc w => replaceWordCI w maskWord acc) s) = false := by
  intro ws
  induction ws with
  | nil => intro s h; simpa using h
  | cons w0 rest ih =>
    intro s h
    simp only [List.foldl_cons]
    apply ih
    simp only [replaceWordCI]
    cases hq : containsBOcc u none (replaceWordCIF w0 maskWord s.length none s)
    · rfl
    · exfalso
      have h2 := bOcc_transfer_replaceWordCIF u w0 maskWord hu hub
        maskWord_blk maskWord_ne s.length none s le_rfl hq
      rw [h] at h2
      exact Bool.noConfusion h2

theorem fold_noBOcc_all :
    ∀ (ws : List (List Char)) (s : List Char),
      (∀ w ∈ ws, w ≠ [] ∧ blk ∉ w) →
      ∀ u ∈ ws, containsBOcc u none
        (ws.foldl (fun acc w => replaceWordCI w maskWord acc) s) = false := by
  intro ws
  induction ws with
  | nil => intro s _ u hu; simp at hu
  | cons w0 rest ih =>
    intro s hfacts u hu
    simp only [List.foldl_cons]
    rcases List.mem_cons.mp hu with he | hm
    · have h0 := hfacts u hu
      rw [he]
      rw [he] at h0
      apply fold_keeps_noBOcc w0 h0.1 h0.2 rest
      simp only [replaceWordCI]
      exact no_self_bOcc_replaceWordCIF w0 maskWord h0.1 h0.2 maskWord_blk
        maskWord_ne s.length none s le_rfl
    · exact ih (replaceWordCI w0 maskWord s)
        (fun w hw => hfacts w (by simp [hw])) u hm

theorem fold_id :
    ∀ (ws : List (List Char)) (s : List Char),
      (∀ u ∈ ws, containsBOcc u none s = false) →
      ws.foldl (fun acc w => replaceWordCI w maskWord acc) s = s := by
  intro ws
  induction ws with
  | nil => intro s _; rfl
  | cons w0 rest ih =>
    intro s h
    simp only [List.foldl_cons]
    have h1 : replaceWordCI w0 maskWord s = s := by
      simp only [replaceWordCI]
      exact replaceWordCIF_id w0 maskWord s.length none s le_rfl
        (h w0 (by simp))
    rw [h1]
    exact ih s (fun u hu => h u (by simp [hu]))

theorem maskDescription_eq (d t : List Char) :
    maskDescription d t =
      (extractSignificantWords (cleanTitle t)).foldl
        (fun acc w => replaceWordCI w maskWord acc)
        (if (cleanTitle t).length > 0
         then replaceAllCI (cleanTitle t) maskFull d else d) := rfl

/-- C8 counterexample: masking is not idempotent in general.  With the raw
title "██" (whose cleaned form consists of mask characters), the masked
description "██" becomes "██████", and a second application re-masks the mask
token itself, yielding a different (longer) string. -/
theorem maskDescription_idempotent_cex :
    maskDescription (lstr "██") (lstr "██") = lstr "██████" ∧
    maskDescription (maskDescription (lstr "██") (lstr "██")) (lstr "██") ≠
      maskDescription (lstr "██") (lstr "██") := by
  constructor
  · decide
  · decide

/-- C8 (amended): for every description and raw title whose cleaned title
contains no mask character '█', the masking step is idempotent: a second
application of maskDescription with the same title changes nothing.  (The
significant words extracted from the title never contain '█' — the
character-class filter keeps only letters — so only the full-title phase
needs the hypothesis.) -/
theorem maskDescription_idempotent (d t : List Char)
    (h : blk ∉ cleanTitle t) :
    maskDescription (maskDescription d t) t = maskDescription d t := by
  set ct := cleanTitle t with hct
  set ws := extractSignificantWords ct with hws
  set m1 := if ct.length > 0 then replaceAllCI ct maskFull d else d with hm1
  set M := ws.foldl (fun acc w => replaceWordCI w maskWord acc) m1 with hM
  have hwf : ∀ w ∈ ws, w ≠ [] ∧ blk ∉ w := by
    rw [hws, hct]
    exact extractSignificantWords_facts (cleanTitle t)
  have hnoW : ∀ u ∈ ws, containsBOcc u none M = false := by
    rw [hM]
    exact fold_noBOcc_all ws m1 hwf
  have hfoldid : ws.foldl (fun acc w => replaceWordCI w maskWord acc) M = M :=
    fold_id ws M hnoW
  rw [maskDescription_eq d t, ← hct, ← hws, ← hm1, ← hM,
    maskDescription_eq M t, ← hct, ← hws]
  by_cases hP : ct.length > 0
  · rw [if_pos hP]
    have hctn : ct ≠ [] := by
      intro he
      rw [he] at hP
      simp at hP
    have hno1 : containsOccCI ct m1 = false := by
      rw [hm1, if_pos hP]
      simp only [replaceAllCI]
      exact no_occ_replaceAllCIF ct maskFull hctn h maskFull_blk
        maskFull_ne d.length d le_rfl
    have hnoM : containsOccCI ct M = false := by
      cases hq : containsOccCI ct M
      · rfl
      · exfalso
        rw [hM] at hq
        have h2 := fold_occCI ct h hctn ws m1 hq
        rw [hno1] at h2
        exact Bool.noConfusion h2
    have hid1 : replaceAllCI ct maskFull M = M := by
      simp only [replaceAllCI]
      exact replaceAllCIF_id ct maskFull M.length M le_rfl hnoM
    rw [hid1]
    exact hfoldid
  · rw [if_neg hP]
    exact hfoldid

/-- C8 witness: a concrete title with a mask-free cleaned form on which the
amended idempotence theorem applies. -/
theorem maskDescription_idempotent_witness :
    blk ∉ cleanTitle (lstr "Marignan") ∧
    maskDescription
        (maskDescription (lstr "Marignan 1515") (lstr "Marignan"))
        (lstr "Marignan") =
      maskDescription (lstr "Marignan 1515") (lstr "Marignan") :=
  ⟨by decide, maskDescription_idempotent (lstr "Marignan 1515")
    (lstr "Marignan") (by decide)⟩
